import Mathlib

/-!
Verification of the Amanzi flow/discretization core against its
natural-language specification.

The development shallowly embeds the routines of
`src/flow/Richards_PK.cpp` (Richards flow process kernel),
`OperatorDiffusionMFD` (mixed mimetic-finite-difference diffusion
operator, file `part_010`) and `DG_Modal` (modal discontinuous-Galerkin
mass matrices, file `part_006`).  Machine doubles are modelled by `ℚ`
(all the properties checked here are exact structural equalities, never
rounding statements); distributed Epetra vectors indexed by mesh
entities become plain functions `ℕ → ℚ`; in-place mutation becomes
explicit state passing, with sequential loops rendered as `List.foldl`.
Mesh topology (an external collaborator of the core, per the spec) is
abstracted by the adjacency data each routine actually reads.
-/

namespace Amanzi

/-! ### Sequential in-place update over entity ids

Several kernels (`DeriveFaceValuesFromCellValues`,
`ImproveAlgebraicConsistency`) loop `for (c = 0; c < n; c++)` writing
exactly the entry `c` of a vector, possibly reading entries already
rewritten by earlier iterations.  `seqUpdate` is that loop shape. -/

universe u

variable {α : Type u}

/-- Running `seqUpdate step s0 n` performs `for i in [0,n): s[i] := step s i` on the
vector `s0`, where `step` may read the partially updated state. -/
def seqUpdate (step : (ℕ → α) → ℕ → α) (s0 : ℕ → α) (n : ℕ) : ℕ → α :=
  (List.range n).foldl (fun s i => Function.update s i (step s i)) s0

theorem seqUpdate_zero (step : (ℕ → α) → ℕ → α) (s0 : ℕ → α) :
    seqUpdate step s0 0 = s0 := rfl

theorem seqUpdate_succ (step : (ℕ → α) → ℕ → α) (s0 : ℕ → α) (n : ℕ) :
    seqUpdate step s0 (n + 1) =
      Function.update (seqUpdate step s0 n) n (step (seqUpdate step s0 n) n) := by
  unfold seqUpdate
  rw [List.range_succ, List.foldl_append, List.foldl_cons, List.foldl_nil]

/-- Entries at or beyond the loop bound are never written. -/
theorem seqUpdate_ge (step : (ℕ → α) → ℕ → α) (s0 : ℕ → α) (n i : ℕ)
    (h : n ≤ i) : seqUpdate step s0 n i = s0 i := by
  induction n with
  | zero => rfl
  | succ m ih =>
    rw [seqUpdate_succ, Function.update_apply]
    have hmi : m ≠ i := by omega
    simp only [if_neg (by omega : ¬ i = m)]
    exact ih (by omega)

/-- Iterations after `i` leave the entry `i` alone: the state at `i`
is frozen once iteration `i` has run. -/
theorem seqUpdate_stable (step : (ℕ → α) → ℕ → α) (s0 : ℕ → α) (m n i : ℕ)
    (hi : i < m) (hmn : m ≤ n) :
    seqUpdate step s0 n i = seqUpdate step s0 m i := by
  induction n with
  | zero => omega
  | succ k ih =>
    rcases Nat.lt_or_ge m (k + 1) with hlt | hge
    · have hmk : m ≤ k := by omega
      rw [seqUpdate_succ, Function.update_apply, if_neg (by omega : ¬ i = k)]
      exact ih hmk
    · have : m = k + 1 := by omega
      rw [this]

/-- The final value of entry `i` is the one computed by iteration `i`,
read against the state the loop has built up to that point. -/
theorem seqUpdate_lt (step : (ℕ → α) → ℕ → α) (s0 : ℕ → α) (n i : ℕ)
    (h : i < n) :
    seqUpdate step s0 n i = step (seqUpdate step s0 i) i := by
  have h1 : seqUpdate step s0 n i = seqUpdate step s0 (i + 1) i :=
    seqUpdate_stable step s0 (i + 1) n i (by omega) (by omega)
  rw [h1, seqUpdate_succ, Function.update_apply, if_pos rfl]

/-! ## Richards flow process kernel: `DeriveFaceValuesFromCellValues`

Source (`src/flow/Richards_PK.cpp`, lines 711-728): for every owned
face `f`, collect the owned cells adjacent to `f`; if at least one,
the face value is the arithmetic mean of their cell values, otherwise
the reference atmospheric pressure.  The mesh query
`face_get_cells(f, OWNED, &cells)` is abstracted by `adjOwned`. -/

namespace RichardsPK

/-- One iteration body of `DeriveFaceValuesFromCellValues`: the value
written to face `f` (it reads only the cell vector, never `ufaces`). -/
def faceValueOf (adjOwned : ℕ → List ℕ) (atm : ℚ) (ucells : ℕ → ℚ) (f : ℕ) : ℚ :=
  let cells := adjOwned f
  if cells.length > 0 then
    (cells.foldl (fun acc c => acc + ucells c) 0) / cells.length
  else atm

/-- Model of `Richards_PK::DeriveFaceValuesFromCellValues`: loop over owned
faces writing `ufaces[f]`. -/
def deriveFaceValuesFromCellValues (nfacesOwned : ℕ) (adjOwned : ℕ → List ℕ)
    (atm : ℚ) (ucells : ℕ → ℚ) (ufaces : ℕ → ℚ) : ℕ → ℚ :=
  seqUpdate (fun _ f => faceValueOf adjOwned atm ucells f) ufaces nfacesOwned

end RichardsPK

/-- **C7.** For every owned face `f`, `DeriveFaceValuesFromCellValues`
sets the face value to the arithmetic mean of the cell values of `f`'s
adjacent owned cells when there is at least one such cell, and to the
reference atmospheric pressure when there are none; entries other than
the owned faces are never written. -/
theorem C7_derive_face_values (nfacesOwned : ℕ) (adjOwned : ℕ → List ℕ)
    (atm : ℚ) (ucells : ℕ → ℚ) (ufaces : ℕ → ℚ) (f : ℕ) :
    (f < nfacesOwned → (adjOwned f).length > 0 →
      RichardsPK.deriveFaceValuesFromCellValues nfacesOwned adjOwned atm ucells ufaces f =
        ((adjOwned f).foldl (fun acc c => acc + ucells c) 0) / (adjOwned f).length) ∧
    (f < nfacesOwned → (adjOwned f).length = 0 →
      RichardsPK.deriveFaceValuesFromCellValues nfacesOwned adjOwned atm ucells ufaces f = atm) ∧
    (nfacesOwned ≤ f →
      RichardsPK.deriveFaceValuesFromCellValues nfacesOwned adjOwned atm ucells ufaces f =
        ufaces f) := by
  refine ⟨fun hf hpos => ?_, fun hf hzero => ?_, fun hf => ?_⟩
  · rw [RichardsPK.deriveFaceValuesFromCellValues, seqUpdate_lt _ _ _ _ hf]
    simp only [RichardsPK.faceValueOf, if_pos hpos]
  · rw [RichardsPK.deriveFaceValuesFromCellValues, seqUpdate_lt _ _ _ _ hf]
    simp only [RichardsPK.faceValueOf]
    rw [if_neg (by omega)]
  · exact seqUpdate_ge _ _ _ _ hf

/-- **C7 witness.** A two-face mesh: face 0 has owned cells `[0, 1]`
(mean of two values), face 1 has none (atmospheric default), face 2 is
beyond the owned range (untouched). -/
theorem C7_derive_face_values_witness :
    RichardsPK.deriveFaceValuesFromCellValues 2
        (fun f => if f = 0 then [0, 1] else []) 101325
        (fun c => if c = 0 then 3 else 5) (fun _ => 7) 0 = 4 ∧
    RichardsPK.deriveFaceValuesFromCellValues 2
        (fun f => if f = 0 then [0, 1] else []) 101325
        (fun c => if c = 0 then 3 else 5) (fun _ => 7) 1 = 101325 ∧
    RichardsPK.deriveFaceValuesFromCellValues 2
        (fun f => if f = 0 then [0, 1] else []) 101325
        (fun c => if c = 0 then 3 else 5) (fun _ => 7) 2 = 7 := by
  refine ⟨?_, ?_, ?_⟩
  · rw [(C7_derive_face_values 2 (fun f => if f = 0 then [0, 1] else []) 101325
      (fun c => if c = 0 then 3 else 5) (fun _ => 7) 0).1 (by omega) (by decide)]
    norm_num [List.foldl]
  · rw [(C7_derive_face_values 2 (fun f => if f = 0 then [0, 1] else []) 101325
      (fun c => if c = 0 then 3 else 5) (fun _ => 7) 1).2.1 (by omega) (by decide)]
  · exact (C7_derive_face_values 2 (fun f => if f = 0 then [0, 1] else []) 101325
      (fun c => if c = 0 then 3 else 5) (fun _ => 7) 2).2.2 (by omega)

/-! ## Richards flow process kernel: `ImproveAlgebraicConsistency`

Source (`src/flow/Richards_PK.cpp`, lines 781-825).  For each owned
cell `c`, in ascending order and **in place** on the saturation vector
`ws`:
  * `wsmin`/`wsmax` are folded from `ws[c]` and `ws[c2]` over the faces
    of `c`, where `c2 = MFD3D::cell_get_face_adj_cell(c, f)`;
  * a new saturation is predicted from `ws_prev[c]` minus
    `dT / (phi[c]*volume[c]) * flux_d[f] * dirs[n]` summed over faces;
  * the prediction is clamped to `[wsmin, wsmax]`.
The mesh data each iteration reads is abstracted by `cellData c`, the
list over local faces `n` of `c` of the pair (adjacent cell id,
`flux_d[f] * dirs[n]`).  Only interior meshes are modelled (every face
of every cell has an adjacent cell): on a boundary face the source
calls `cell_get_face_adj_cell`, gets `-1`, and reads `ws[-1]` out of
bounds, which has no defined meaning to embed. -/

namespace RichardsPK

/-- Loop body of `ImproveAlgebraicConsistency` for cell `c`, reading
the partially updated saturation vector `ws`. -/
def ledStep (phi vol : ℕ → ℚ) (dT : ℚ) (wsPrev : ℕ → ℚ)
    (cellData : ℕ → List (ℕ × ℚ)) (ws : ℕ → ℚ) (c : ℕ) : ℚ :=
  let wsmin := (cellData c).foldl (fun a e => min a (ws e.1)) (ws c)
  let wsmax := (cellData c).foldl (fun a e => max a (ws e.1)) (ws c)
  let factor := dT / (phi c * vol c)
  let predicted := (cellData c).foldl (fun a e => a - factor * e.2) (wsPrev c)
  min (max predicted wsmin) wsmax

/-- Model of `Richards_PK::ImproveAlgebraicConsistency`: the sequential in-place
pass over owned cells. -/
def improveAlgebraicConsistency (ncells : ℕ) (phi vol : ℕ → ℚ) (dT : ℚ)
    (cellData : ℕ → List (ℕ × ℚ)) (wsPrev ws : ℕ → ℚ) : ℕ → ℚ :=
  seqUpdate (ledStep phi vol dT wsPrev cellData) ws ncells

/-- Claim C4 as stated: after the pass, every cell's saturation lies in
the closed interval spanned by the **pre-update** saturation values of
its face-adjacent neighbours together with its own pre-update value. -/
def LEDPreUpdateClaim : Prop :=
  ∀ (ncells : ℕ) (phi vol : ℕ → ℚ) (dT : ℚ) (cellData : ℕ → List (ℕ × ℚ))
    (wsPrev ws : ℕ → ℚ) (c : ℕ), c < ncells →
    (cellData c).foldl (fun a e => min a (ws e.1)) (ws c) ≤
      improveAlgebraicConsistency ncells phi vol dT cellData wsPrev ws c ∧
    improveAlgebraicConsistency ncells phi vol dT cellData wsPrev ws c ≤
      (cellData c).foldl (fun a e => max a (ws e.1)) (ws c)

/-- The four-cell ring used to refute the pre-update reading of the
LED claim: cell `c` is adjacent to cells `c±1 (mod 4)`, every face is
interior, and all fluxes vanish. -/
def ring4 : ℕ → List (ℕ × ℚ) := fun c => [((c + 1) % 4, 0), ((c + 3) % 4, 0)]

/-- Initial saturation on the ring: 1 on cell 0, 0 elsewhere. -/
def ring4ws : ℕ → ℚ := fun c => if c = 0 then 1 else 0

end RichardsPK

/-- **C4 counterexample.** The claim fails on the four-cell ring with
`ws = (1,0,0,0)`, `ws_prev ≡ 1` and zero flux: the pass rewrites cells
in ascending order in place, so cell 1 is clamped against the already
updated value `ws[0] = 1` and becomes 1, then cell 2 is clamped against
the updated `ws[1] = 1` and becomes 1 — yet the interval spanned by the
pre-update values of cell 2 and its neighbours 1, 3 is `[0, 0]`. -/
theorem C4_led_counterexample : ¬ RichardsPK.LEDPreUpdateClaim := by
  intro h
  have h2 := (h 4 (fun _ => 1) (fun _ => 1) 1 RichardsPK.ring4 (fun _ => 1)
      RichardsPK.ring4ws 2 (by omega)).2
  -- the pre-update upper bound at cell 2 is 0
  have hmax : (RichardsPK.ring4 2).foldl
      (fun a e => max a (RichardsPK.ring4ws e.1)) (RichardsPK.ring4ws 2) = 0 := by
    simp [RichardsPK.ring4, RichardsPK.ring4ws]
  -- but the pass leaves cell 2 at saturation 1
  have hval : RichardsPK.improveAlgebraicConsistency 4 (fun _ => 1) (fun _ => 1) 1
      RichardsPK.ring4 (fun _ => 1) RichardsPK.ring4ws 2 = 1 := by
    have e0 : seqUpdate (RichardsPK.ledStep (fun _ => 1) (fun _ => 1) 1 (fun _ => 1)
        RichardsPK.ring4) RichardsPK.ring4ws 1 0 = 1 := by
      rw [seqUpdate_lt _ _ _ _ (by omega : 0 < 1), seqUpdate_zero]
      simp [RichardsPK.ledStep, RichardsPK.ring4, RichardsPK.ring4ws]
    have e1 : seqUpdate (RichardsPK.ledStep (fun _ => 1) (fun _ => 1) 1 (fun _ => 1)
        RichardsPK.ring4) RichardsPK.ring4ws 2 1 = 1 := by
      rw [seqUpdate_lt _ _ _ _ (by omega : 1 < 2)]
      have g2 : seqUpdate (RichardsPK.ledStep (fun _ => 1) (fun _ => 1) 1 (fun _ => 1)
          RichardsPK.ring4) RichardsPK.ring4ws 1 2 = 0 := by
        rw [seqUpdate_ge _ _ _ _ (by omega : 1 ≤ 2)]; rfl
      have g1 : seqUpdate (RichardsPK.ledStep (fun _ => 1) (fun _ => 1) 1 (fun _ => 1)
          RichardsPK.ring4) RichardsPK.ring4ws 1 1 = 0 := by
        rw [seqUpdate_ge _ _ _ _ (by omega : 1 ≤ 1)]; rfl
      simp only [RichardsPK.ledStep, RichardsPK.ring4]
      norm_num [g1, g2, e0, RichardsPK.ring4ws]
    rw [RichardsPK.improveAlgebraicConsistency, seqUpdate_lt _ _ _ _ (by omega : 2 < 4)]
    have g3 : seqUpdate (RichardsPK.ledStep (fun _ => 1) (fun _ => 1) 1 (fun _ => 1)
        RichardsPK.ring4) RichardsPK.ring4ws 2 3 = 0 := by
      rw [seqUpdate_ge _ _ _ _ (by omega : 2 ≤ 3)]; rfl
    have g2c : seqUpdate (RichardsPK.ledStep (fun _ => 1) (fun _ => 1) 1 (fun _ => 1)
        RichardsPK.ring4) RichardsPK.ring4ws 2 2 = 0 := by
      rw [seqUpdate_ge _ _ _ _ (by omega : 2 ≤ 2)]; rfl
    simp only [RichardsPK.ledStep, RichardsPK.ring4]
    norm_num [g3, g2c, e1]
  rw [hval, hmax] at h2
  norm_num at h2

/-- Bounding helper: folding `min` over a list never rises above the
starting value. -/
theorem foldl_min_le_init (g : ℕ × ℚ → ℚ) (l : List (ℕ × ℚ)) (init : ℚ) :
    l.foldl (fun a e => min a (g e)) init ≤ init := by
  induction l generalizing init with
  | nil => exact le_refl _
  | cons hd tl ih =>
    exact le_trans (ih (min init (g hd))) (min_le_left _ _)

/-- Bounding helper: folding `max` over a list never falls below the
starting value. -/
theorem init_le_foldl_max (g : ℕ × ℚ → ℚ) (l : List (ℕ × ℚ)) (init : ℚ) :
    init ≤ l.foldl (fun a e => max a (g e)) init := by
  induction l generalizing init with
  | nil => exact le_refl _
  | cons hd tl ih =>
    exact le_trans (le_max_left _ _) (ih (max init (g hd)))

/-- **C4 (amended).** After `ImproveAlgebraicConsistency`, every owned
cell's saturation lies within the closed interval spanned by the
saturation values of its face-adjacent neighbours *as they stand when
the cell is processed* (cells with smaller index have already been
updated by the same pass), together with the cell's own value at that
moment.  The pre-update reading of the claim is refuted by
`C4_led_counterexample`. -/
theorem C4_led_amended (ncells : ℕ) (phi vol : ℕ → ℚ) (dT : ℚ)
    (cellData : ℕ → List (ℕ × ℚ)) (wsPrev ws : ℕ → ℚ) (c : ℕ) (hc : c < ncells) :
    (cellData c).foldl
        (fun a e => min a (seqUpdate (RichardsPK.ledStep phi vol dT wsPrev cellData) ws c e.1))
        (seqUpdate (RichardsPK.ledStep phi vol dT wsPrev cellData) ws c c) ≤
      RichardsPK.improveAlgebraicConsistency ncells phi vol dT cellData wsPrev ws c ∧
    RichardsPK.improveAlgebraicConsistency ncells phi vol dT cellData wsPrev ws c ≤
      (cellData c).foldl
        (fun a e => max a (seqUpdate (RichardsPK.ledStep phi vol dT wsPrev cellData) ws c e.1))
        (seqUpdate (RichardsPK.ledStep phi vol dT wsPrev cellData) ws c c) := by
  rw [RichardsPK.improveAlgebraicConsistency, seqUpdate_lt _ _ _ _ hc]
  set s := seqUpdate (RichardsPK.ledStep phi vol dT wsPrev cellData) ws c with hs
  show (cellData c).foldl (fun a e => min a (s e.1)) (s c) ≤ RichardsPK.ledStep phi vol dT wsPrev cellData s c ∧ _
  unfold RichardsPK.ledStep
  set wsmin := (cellData c).foldl (fun a e => min a (s e.1)) (s c) with hmin
  set wsmax := (cellData c).foldl (fun a e => max a (s e.1)) (s c) with hmax
  have hminmax : wsmin ≤ wsmax :=
    le_trans (foldl_min_le_init (fun e => s e.1) (cellData c) (s c))
      (init_le_foldl_max (fun e => s e.1) (cellData c) (s c))
  constructor
  · exact le_min (le_trans (le_max_right _ _) (le_refl _)) hminmax
  · exact min_le_right _ _

/-- **C4 witness.** The amended bound instantiated on the four-cell
ring at cell 2 (the cell of the counterexample): the clamp does hold
against the values current when cell 2 is processed. -/
theorem C4_led_amended_witness :
    (RichardsPK.ring4 2).foldl
        (fun a e => min a (seqUpdate (RichardsPK.ledStep (fun _ => 1) (fun _ => 1) 1 (fun _ => 1)
          RichardsPK.ring4) RichardsPK.ring4ws 2 e.1))
        (seqUpdate (RichardsPK.ledStep (fun _ => 1) (fun _ => 1) 1 (fun _ => 1)
          RichardsPK.ring4) RichardsPK.ring4ws 2 2) ≤
      RichardsPK.improveAlgebraicConsistency 4 (fun _ => 1) (fun _ => 1) 1
        RichardsPK.ring4 (fun _ => 1) RichardsPK.ring4ws 2 ∧
    RichardsPK.improveAlgebraicConsistency 4 (fun _ => 1) (fun _ => 1) 1
        RichardsPK.ring4 (fun _ => 1) RichardsPK.ring4ws 2 ≤
      (RichardsPK.ring4 2).foldl
        (fun a e => max a (seqUpdate (RichardsPK.ledStep (fun _ => 1) (fun _ => 1) 1 (fun _ => 1)
          RichardsPK.ring4) RichardsPK.ring4ws 2 e.1))
        (seqUpdate (RichardsPK.ledStep (fun _ => 1) (fun _ => 1) 1 (fun _ => 1)
          RichardsPK.ring4) RichardsPK.ring4ws 2 2) :=
  C4_led_amended 4 (fun _ => 1) (fun _ => 1) 1 RichardsPK.ring4 (fun _ => 1)
    RichardsPK.ring4ws 2 (by omega)

/-! ## Richards flow process kernel: time stepping state

Source (`src/flow/Richards_PK.cpp`).  The fields tracked here are the
ones `CalculateFlowDt` (lines 536-540) and `Advance` (lines 548-602)
read or write: `ti_method`, `block_picard`, `num_itrs`, `dT`, `dTnext`,
`flow_status_` and the solution vector.  The constructor leaves
`block_picard = 1`; each of `InitPicard`/`InitSteadyState`/
`InitTransient` resets `num_itrs = 0`, `block_picard = 0` and sets
`flow_status_`; no `Init*` has run in status `FLOW_STATUS_INIT` (set by
`InitPK`).  The work delegated to the BDF integrators, the Picard
iteration and `AdvanceToSteadyState` is abstracted by oracles: those
routines update the solution vector and (except the steady-state
drive) report a suggested next step, while `ComputeUDot` and
`update_precon` touch only the matrix/preconditioner objects, none of
the fields tracked here. -/

namespace RichardsPK

/-- Time-integration method selector (`FLOW_TIME_INTEGRATION_*`). -/
inductive TIMethod where
  | bdf1 : TIMethod
  | bdf2 : TIMethod
  | picard : TIMethod
deriving DecidableEq

/-- Flow status state machine (`FLOW_STATUS_*`). -/
inductive FlowStatus where
  | init : FlowStatus
  | steadyStateInit : FlowStatus
  | transientStateInit : FlowStatus
  | transientStateComplete : FlowStatus
deriving DecidableEq

/-- The members of `Richards_PK` read or written by `CalculateFlowDt`
and `Advance`. -/
structure State (Sol : Type) where
  tiMethod : TIMethod
  blockPicard : ℕ
  numItrs : ℕ
  dT : ℚ
  dTnext : ℚ
  flowStatus : FlowStatus
  solution : Sol

/-- External solver routines invoked by `Advance`, abstracted: each
returns the updated solution (and, for one-step drivers, the suggested
next step `dTnext`). -/
structure SolverOracles (Sol : Type) where
  advanceToSteadyState : Sol → Sol
  picardTimeStep : ℚ → Sol → Sol × ℚ
  bdf1Step : ℚ → Sol → Sol × ℚ
  bdf2Step : ℚ → Sol → Sol × ℚ

/-- Model of `Richards_PK::CalculateFlowDt`: bump the stored step by `1e+4`
(exactly 10000 in binary floating point) when the Picard phase has
converged (`block_picard == 1`), then return the stored step. -/
def calculateFlowDt (s : State Sol) : State Sol × ℚ :=
  if s.tiMethod = TIMethod.picard ∧ s.blockPicard = 1 then
    ({ s with dT := s.dT * 10000 }, s.dT * 10000)
  else (s, s.dT)

/-- Model of `Richards_PK::Advance(dT_MPC)`: one time step.  Returns the new
state and the C return code (the source ends with `return 0;` on every
path). -/
def advance (o : SolverOracles Sol) (s0 : State Sol) (dT_MPC : ℚ) :
    State Sol × ℤ :=
  let s1 := { s0 with dT := dT_MPC }
  -- first call since (re)initialization: seed the integrator state;
  -- ComputeUDot / set_initial_state / update_precon mutate only the
  -- matrix, integrator and preconditioner objects, not tracked fields
  let s2 :=
    if s1.numItrs = 0 then
      if s1.tiMethod = TIMethod.picard ∧ s1.flowStatus = FlowStatus.steadyStateInit then
        { s1 with solution := o.advanceToSteadyState s1.solution, blockPicard := 1 }
      else s1
    else s1
  let s3 :=
    match s2.tiMethod with
    | TIMethod.bdf2 =>
        let r := o.bdf2Step s2.dT s2.solution
        { s2 with solution := r.1, dTnext := r.2 }
    | TIMethod.bdf1 =>
        let r := o.bdf1Step s2.dT s2.solution
        { s2 with solution := r.1, dTnext := r.2 }
    | TIMethod.picard =>
        if s2.blockPicard = 0 then
          let r := o.picardTimeStep s2.dT s2.solution
          { s2 with solution := r.1, dTnext := r.2 }
        else
          { s2 with dTnext := s2.dT }
  ({ s3 with numItrs := s3.numItrs + 1,
             flowStatus := FlowStatus.transientStateComplete }, 0)

/-- Claim C5 as stated: `Advance` called before any `Init*` (i.e. in
status `FLOW_STATUS_INIT`) is rejected with an error signal. -/
def AdvanceRejectedBeforeInit : Prop :=
  ∀ (o : SolverOracles (ℕ → ℚ)) (s : State (ℕ → ℚ)) (d : ℚ),
    s.flowStatus = FlowStatus.init → (advance o s d).2 ≠ 0

/-- A fresh kernel right after `InitPK` (before any `Init*` call):
`flow_status_ = FLOW_STATUS_INIT`, `block_picard = 1` (constructor
value), `num_itrs = 0`. -/
def freshState : State (ℕ → ℚ) :=
  { tiMethod := TIMethod.picard, blockPicard := 1, numItrs := 0,
    dT := 1, dTnext := 0, flowStatus := FlowStatus.init,
    solution := fun _ => 0 }

/-- Placeholder solver oracles for concrete runs. -/
def trivOracles : SolverOracles (ℕ → ℚ) :=
  { advanceToSteadyState := id,
    picardTimeStep := fun d sol => (sol, d),
    bdf1Step := fun d sol => (sol, d),
    bdf2Step := fun d sol => (sol, d) }

end RichardsPK

/-- **C5 counterexample.** `Advance` contains no check of the flow
status: invoked on a kernel fresh out of `InitPK` (status
`FLOW_STATUS_INIT`, no `Init*` called) it performs its step path and
returns 0, even marking the status `TRANSIENT_STATE_COMPLETE`, instead
of signalling an error. -/
theorem C5_advance_counterexample :
    ¬ RichardsPK.AdvanceRejectedBeforeInit ∧
    (RichardsPK.advance RichardsPK.trivOracles RichardsPK.freshState 1).2 = 0 ∧
    (RichardsPK.advance RichardsPK.trivOracles RichardsPK.freshState 1).1.flowStatus =
      RichardsPK.FlowStatus.transientStateComplete := by
  refine ⟨fun h => ?_, rfl, rfl⟩
  exact h RichardsPK.trivOracles RichardsPK.freshState 1 rfl rfl

/-- **C5 (amended).** `Advance` never verifies initialization: from any
state whatsoever — in particular before any `Init*` call — it executes
a step path, returns the success code 0, and sets the flow status to
`TRANSIENT_STATE_COMPLETE`. -/
theorem C5_advance_amended (o : RichardsPK.SolverOracles Sol)
    (s : RichardsPK.State Sol) (d : ℚ) :
    (RichardsPK.advance o s d).2 = 0 ∧
    (RichardsPK.advance o s d).1.flowStatus =
      RichardsPK.FlowStatus.transientStateComplete := by
  constructor <;> rfl

/-- **C8.** With the Picard method active and the blocking flag set
(`block_picard == 1`), `CalculateFlowDt` multiplies the stored step by
exactly `1e+4` and returns the bumped value; in every other
configuration it returns the stored step unchanged and leaves the
state alone.  Subsequent `Advance` calls in that blocked configuration
are pass-throughs: the solution is untouched, the suggested next step
equals the step just requested, and the return code is 0. -/
theorem C8_picard_dt_bump :
    (∀ (s : RichardsPK.State Sol),
      s.tiMethod = RichardsPK.TIMethod.picard → s.blockPicard = 1 →
      RichardsPK.calculateFlowDt s = ({ s with dT := s.dT * 10000 }, s.dT * 10000)) ∧
    (∀ (s : RichardsPK.State Sol),
      ¬ (s.tiMethod = RichardsPK.TIMethod.picard ∧ s.blockPicard = 1) →
      RichardsPK.calculateFlowDt s = (s, s.dT)) ∧
    (∀ (o : RichardsPK.SolverOracles Sol) (s : RichardsPK.State Sol) (d : ℚ),
      s.tiMethod = RichardsPK.TIMethod.picard → s.blockPicard = 1 → s.numItrs ≠ 0 →
      (RichardsPK.advance o s d).1.solution = s.solution ∧
      (RichardsPK.advance o s d).1.dTnext = d ∧
      (RichardsPK.advance o s d).2 = 0) := by
  refine ⟨fun s h1 h2 => ?_, fun s h => ?_, fun o s d h1 h2 h3 => ?_⟩
  · rw [RichardsPK.calculateFlowDt, if_pos ⟨h1, h2⟩]
  · rw [RichardsPK.calculateFlowDt, if_neg h]
  · unfold RichardsPK.advance
    simp only [if_neg h3, h1]
    simp [h2]

/-- **C8 witness.** The bump, the unchanged branch and the
pass-through instantiated on concrete states. -/
theorem C8_picard_dt_bump_witness :
    RichardsPK.calculateFlowDt
        { RichardsPK.freshState with blockPicard := 1, dT := 2 } =
      ({ RichardsPK.freshState with blockPicard := 1, dT := 2 * 10000 }, 2 * 10000) ∧
    RichardsPK.calculateFlowDt
        { RichardsPK.freshState with blockPicard := 0, dT := 2 } =
      ({ RichardsPK.freshState with blockPicard := 0, dT := 2 }, 2) ∧
    ((RichardsPK.advance RichardsPK.trivOracles
        { RichardsPK.freshState with numItrs := 3 } 5).1.solution =
      RichardsPK.freshState.solution ∧
    (RichardsPK.advance RichardsPK.trivOracles
        { RichardsPK.freshState with numItrs := 3 } 5).1.dTnext = 5 ∧
    (RichardsPK.advance RichardsPK.trivOracles
        { RichardsPK.freshState with numItrs := 3 } 5).2 = 0) := by
  refine ⟨?_, ?_, ?_⟩
  · exact (@C8_picard_dt_bump (ℕ → ℚ)).1 _ rfl rfl
  · exact (@C8_picard_dt_bump (ℕ → ℚ)).2.1 _ (by simp [RichardsPK.freshState])
  · exact (@C8_picard_dt_bump (ℕ → ℚ)).2.2 RichardsPK.trivOracles _ 5 rfl rfl (by simp)

/-! ## `OperatorDiffusionMFD`: mixed face+cell local matrices

Source (`part_010`): `UpdateMatricesMixed_` (lines 276-412) and
`UpdateMatricesMixedWithGrad_` (lines 202-270) build, per owned cell,
the `(nfaces+1) x (nfaces+1)` local matrix `Acell` from the inverse
mass matrix `Wff` and the nonlinear coefficients `kf` (per local face)
and `kc` (cell value).  Local face indices are `Fin nf`; the extra
cell row/column is `Fin.last nf`.  Division in the `divk` branch is
`ℚ` division (total, with junk value 0 at `kc = 0`, which does not
affect the structural identities proved here). -/

namespace DiffusionMFD

/-- Generic branch (`upwind_ != DIVK`, unscaled constraint):
`Acell(n,m) = Wff(n,m)*kf[n]`, face rows closed by their negated row
sums, cell row built from the negated column sums with the total sum
`matsum` on the diagonal. -/
def genericAcell (nf : ℕ) (W : Fin nf → Fin nf → ℚ) (kf : Fin nf → ℚ) :
    Fin (nf + 1) → Fin (nf + 1) → ℚ := fun i j =>
  Fin.lastCases
    (Fin.lastCases (∑ n, ∑ m, W n m * kf n) (fun jn => -(∑ m, W m jn * kf m)) j)
    (fun ni => Fin.lastCases (-(∑ m, W ni m * kf ni)) (fun jn => W ni jn * kf ni) j)
    i

/-- Scaled-constraint branch (`scaled_constraint_`, allows `kr = 0`):
the face block is the raw `Wff`, the coefficients only weight the
closing cell row/column and diagonal. -/
def scaledAcell (nf : ℕ) (W : Fin nf → Fin nf → ℚ) (kf : Fin nf → ℚ) :
    Fin (nf + 1) → Fin (nf + 1) → ℚ := fun i j =>
  Fin.lastCases
    (Fin.lastCases (∑ n, (∑ m, W n m) * kf n) (fun jn => -(∑ m, W m jn * kf m)) j)
    (fun ni => Fin.lastCases (-(∑ m, W ni m)) (fun jn => W ni jn) j)
    i

/-- Amanzi second upwind (`OPERATOR_UPWIND_AMANZI_DIVK`): the matrix is
replaced by `Wff(n,m)*kf[n]*kf[m]/kc`, with both the cell column and
the cell row closed by the negated row sums. -/
def divkAcell (nf : ℕ) (W : Fin nf → Fin nf → ℚ) (kf : Fin nf → ℚ) (kc : ℚ) :
    Fin (nf + 1) → Fin (nf + 1) → ℚ := fun i j =>
  Fin.lastCases
    (Fin.lastCases (∑ n, ∑ m, W n m * kf n * kf m / kc)
      (fun jn => -(∑ m, W jn m * kf jn * kf m / kc)) j)
    (fun ni => Fin.lastCases (-(∑ m, W ni m * kf ni * kf m / kc))
      (fun jn => W ni jn * kf ni * kf jn / kc) j)
    i

/-- Second-order upwind (`UpdateMatricesMixedWithGrad_`): same closure
as the `divk` branch with `Wff` recomputed and no `1/kc` factor. -/
def withGradAcell (nf : ℕ) (W : Fin nf → Fin nf → ℚ) (kf : Fin nf → ℚ) :
    Fin (nf + 1) → Fin (nf + 1) → ℚ := fun i j =>
  Fin.lastCases
    (Fin.lastCases (∑ n, ∑ m, W n m * kf n * kf m)
      (fun jn => -(∑ m, W jn m * kf jn * kf m)) j)
    (fun ni => Fin.lastCases (-(∑ m, W ni m * kf ni * kf m))
      (fun jn => W ni jn * kf ni * kf jn) j)
    i

/-- Artificial-diffusion correction weight: `alpha = kface[f] - kc`,
applied only when positive, scaled by the diagonal `Wff(n,n)`. -/
def artAlpha (nf : ℕ) (W : Fin nf → Fin nf → ℚ) (kface : Fin nf → ℚ) (kc : ℚ)
    (n : Fin nf) : ℚ :=
  if kface n - kc > 0 then (kface n - kc) * W n n else 0

/-- Amanzi first upwind (`OPERATOR_UPWIND_AMANZI_ARTIFICIAL_DIFFUSION`):
the generic matrix with `kf ≡ kc`, plus the flux correction `alpha` on
the `(n,n)` diagonal, balanced against the cell row/column. -/
def artificialAcell (nf : ℕ) (W : Fin nf → Fin nf → ℚ) (kface : Fin nf → ℚ)
    (kc : ℚ) : Fin (nf + 1) → Fin (nf + 1) → ℚ := fun i j =>
  genericAcell nf W (fun _ => kc) i j +
  Fin.lastCases
    (Fin.lastCases (∑ n, artAlpha nf W kface kc n)
      (fun jn => -(artAlpha nf W kface kc jn)) j)
    (fun ni => Fin.lastCases (-(artAlpha nf W kface kc ni))
      (fun jn => if ni = jn then artAlpha nf W kface kc ni else 0) j)
    i

end DiffusionMFD

/-- **C9.** Every local matrix produced by the mixed-discretization
update — the generic, scaled-constraint, artificial-diffusion, div-K
and second-order-gradient branches alike — has every row summing
exactly to zero, so constant pressure vectors lie in its null space;
each face row's cell-column entry is the negated sum of its face-block
entries, and (for a symmetric `Wff`, which the mass-matrix generators
produce) the cell row consists of the negated column sums with the
total sum on the diagonal. -/
theorem C9_mixed_row_sums (nf : ℕ) (W : Fin nf → Fin nf → ℚ)
    (kf kface : Fin nf → ℚ) (kc : ℚ) :
    (∀ i, ∑ j, DiffusionMFD.genericAcell nf W kf i j = 0) ∧
    (∀ i, ∑ j, DiffusionMFD.scaledAcell nf W kf i j = 0) ∧
    (∀ i, ∑ j, DiffusionMFD.artificialAcell nf W kface kc i j = 0) ∧
    (∀ i, ∑ j, DiffusionMFD.divkAcell nf W kf kc i j = 0) ∧
    (∀ i, ∑ j, DiffusionMFD.withGradAcell nf W kf i j = 0) ∧
    (∀ n : Fin nf, DiffusionMFD.genericAcell nf W kf n.castSucc (Fin.last nf) =
      -(∑ m : Fin nf, DiffusionMFD.genericAcell nf W kf n.castSucc m.castSucc)) ∧
    (∀ n : Fin nf, DiffusionMFD.divkAcell nf W kf kc n.castSucc (Fin.last nf) =
      -(∑ m : Fin nf, DiffusionMFD.divkAcell nf W kf kc n.castSucc m.castSucc)) ∧
    ((∀ n m, W n m = W m n) →
      (∀ n : Fin nf, DiffusionMFD.divkAcell nf W kf kc (Fin.last nf) n.castSucc =
        -(∑ m : Fin nf, DiffusionMFD.divkAcell nf W kf kc m.castSucc n.castSucc))) := by
  have hgen : ∀ (kg : Fin nf → ℚ) i, ∑ j, DiffusionMFD.genericAcell nf W kg i j = 0 := by
    intro kg i
    induction i using Fin.lastCases with
    | last =>
      simp only [DiffusionMFD.genericAcell, Fin.sum_univ_castSucc,
        Fin.lastCases_last, Fin.lastCases_castSucc]
      rw [Finset.sum_neg_distrib, Finset.sum_comm]
      exact neg_add_cancel _
    | cast ni =>
      simp [DiffusionMFD.genericAcell, Fin.sum_univ_castSucc,
        Fin.lastCases_last, Fin.lastCases_castSucc]
  refine ⟨hgen kf, ?_, ?_, ?_, ?_, ?_, ?_, ?_⟩
  · intro i
    induction i using Fin.lastCases with
    | last =>
      simp only [DiffusionMFD.scaledAcell, Fin.sum_univ_castSucc,
        Fin.lastCases_last, Fin.lastCases_castSucc, Finset.sum_mul]
      rw [Finset.sum_neg_distrib, Finset.sum_comm]
      exact neg_add_cancel _
    | cast ni =>
      simp [DiffusionMFD.scaledAcell, Fin.sum_univ_castSucc,
        Fin.lastCases_last, Fin.lastCases_castSucc]
  · intro i
    simp only [DiffusionMFD.artificialAcell]
    rw [Finset.sum_add_distrib, hgen (fun _ => kc) i]
    induction i using Fin.lastCases with
    | last =>
      simp only [Fin.sum_univ_castSucc, Fin.lastCases_last, Fin.lastCases_castSucc]
      rw [Finset.sum_neg_distrib]
      simp
    | cast ni =>
      simp only [Fin.sum_univ_castSucc, Fin.lastCases_last, Fin.lastCases_castSucc]
      rw [Finset.sum_ite_eq (Finset.univ) ni
        (fun _ => DiffusionMFD.artAlpha nf W kface kc ni)]
      simp
  · intro i
    induction i using Fin.lastCases with
    | last =>
      simp only [DiffusionMFD.divkAcell, Fin.sum_univ_castSucc,
        Fin.lastCases_last, Fin.lastCases_castSucc]
      rw [Finset.sum_neg_distrib]
      exact neg_add_cancel _
    | cast ni =>
      simp [DiffusionMFD.divkAcell, Fin.sum_univ_castSucc,
        Fin.lastCases_last, Fin.lastCases_castSucc]
  · intro i
    induction i using Fin.lastCases with
    | last =>
      simp only [DiffusionMFD.withGradAcell, Fin.sum_univ_castSucc,
        Fin.lastCases_last, Fin.lastCases_castSucc]
      rw [Finset.sum_neg_distrib]
      exact neg_add_cancel _
    | cast ni =>
      simp [DiffusionMFD.withGradAcell, Fin.sum_univ_castSucc,
        Fin.lastCases_last, Fin.lastCases_castSucc]
  · intro n
    simp [DiffusionMFD.genericAcell, Fin.lastCases_last, Fin.lastCases_castSucc]
  · intro n
    simp [DiffusionMFD.divkAcell, Fin.lastCases_last, Fin.lastCases_castSucc]
  · intro hsym n
    simp only [DiffusionMFD.divkAcell, Fin.lastCases_last, Fin.lastCases_castSucc]
    congr 1
    refine Finset.sum_congr rfl (fun m _ => ?_)
    rw [hsym n m]
    ring

/-- **C9 witness.** The row-sum identities and closure formulas
instantiated on a two-face cell with a (symmetric) all-ones inverse
mass matrix. -/
theorem C9_mixed_row_sums_witness :
    (∀ n m : Fin 2, (fun _ _ : Fin 2 => (1 : ℚ)) n m =
      (fun _ _ : Fin 2 => (1 : ℚ)) m n) ∧
    (∀ n : Fin 2,
      DiffusionMFD.divkAcell 2 (fun _ _ => 1) (fun _ => 1) 1 (Fin.last 2) n.castSucc =
        -(∑ m : Fin 2,
          DiffusionMFD.divkAcell 2 (fun _ _ => 1) (fun _ => 1) 1 m.castSucc n.castSucc)) :=
  ⟨fun _ _ => rfl,
    (C9_mixed_row_sums 2 (fun _ _ => 1) (fun _ => 1) (fun _ => 1) 1).2.2.2.2.2.2.2
      (fun _ _ => rfl)⟩

/-! ## `DG_Modal::MassMatrix` (file `part_006`, lines 52-131)

The double loop runs `it` over the Taylor monomial basis and `jt` from
`it` upward, so exactly the pairs `(k, l)` with `k <= l` of polynomial
positions are visited; each visit assigns both `M(l,k)` and `M(k,l)`
the single value `K00 * integrals(|p|+|q|, position(idx_p + idx_q))`.
Every entry is written exactly once, so the loop's final state is the
closed form `dgMassMatrixNatural`.  The monomial multi-index at
position `k` is abstracted by `mi k`, and the cached monomial
integrals by the oracle `integrals` (indexed by a multi-index, which
determines the order/position pair the source uses). -/

namespace DGModal

/-- The value assigned for the visited pair `(k, l)`, `k <= l`:
`K00 * integrals(idx_p + idx_q)`. -/
def massEntry (d : ℕ) (mi : ℕ → Fin d → ℕ) (K00 : ℚ)
    (integrals : (Fin d → ℕ) → ℚ) (k l : ℕ) : ℚ :=
  K00 * integrals (fun i => mi k i + mi l i)

/-- The matrix as left by the mirrored upper-triangle loop of
`DG_Modal::MassMatrix`: entry `(k,l)` was written by the visit to
`(min k l, max k l)`. -/
def massMatrixNatural (d : ℕ) (mi : ℕ → Fin d → ℕ) (K00 : ℚ)
    (integrals : (Fin d → ℕ) → ℚ) (k l : ℕ) : ℚ :=
  if k ≤ l then massEntry d mi K00 integrals k l
  else massEntry d mi K00 integrals l k

/-- The scaling vector `a` assembled by
`Basis_Regularized::BilinearFormNaturalToMy` (part_006, lines 969-987):
`a[n] = monomial_scales_[it.MonomialSetOrder()]` at polynomial position
`n = it.PolynomialPosition()`.  The monomial order of position `n` is
abstracted by `mo n`, and the `monomial_scales_` table (filled by
`Basis_Regularized::Init` with `pow(volume, -k/d)`) by the oracle
`monomialScales`. -/
def basisScale (mo : ℕ → ℕ) (monomialScales : ℕ → ℚ) (n : ℕ) : ℚ :=
  monomialScales (mo n)

/-- Embedding of `Basis_Regularized::BilinearFormNaturalToMy(A)`
(part_006, lines 969-987), the basis change `A_new = R^T A_old R` for
the regularized basis implemented in the same file as
`DG_Modal::MassMatrix`: the double loop writes each entry exactly once
as `A(i,k) = A(i,k) * a[k] * a[i]`. -/
def bilinearFormNaturalToMy (mo : ℕ → ℕ) (monomialScales : ℕ → ℚ)
    (A : ℕ → ℕ → ℚ) : ℕ → ℕ → ℚ := fun i k =>
  A i k * basisScale mo monomialScales k * basisScale mo monomialScales i

/-- The matrix `DG_Modal::MassMatrix` leaves in `M`: the mirrored
upper-triangle assembly followed by the regularized basis change. -/
def massMatrix (d : ℕ) (mi : ℕ → Fin d → ℕ) (K00 : ℚ)
    (integrals : (Fin d → ℕ) → ℚ) (mo : ℕ → ℕ) (monomialScales : ℕ → ℚ)
    (k l : ℕ) : ℚ :=
  bilinearFormNaturalToMy mo monomialScales
    (massMatrixNatural d mi K00 integrals) k l

end DGModal

/-- **C6.** For every cell (i.e. every monomial layout `mi`, integral
cache, monomial-order map and regularized scaling table) and every
tensor value `K00`, the mass matrix returned by `DG_Modal::MassMatrix`
is exactly symmetric: only pairs `k <= l` are computed and the mirror
entry receives the identical value, and the closing
`Basis_Regularized::BilinearFormNaturalToMy` scaling
`A(i,k) * a[k] * a[i]` preserves that equality, so `M(k,l) = M(l,k)`
for all index pairs — an exact equality of the assigned values, not an
up-to-rounding statement. -/
theorem C6_dg_mass_matrix_symmetric (d : ℕ) (mi : ℕ → Fin d → ℕ) (K00 : ℚ)
    (integrals : (Fin d → ℕ) → ℚ) (mo : ℕ → ℕ) (monomialScales : ℕ → ℚ)
    (k l : ℕ) :
    DGModal.massMatrix d mi K00 integrals mo monomialScales k l =
      DGModal.massMatrix d mi K00 integrals mo monomialScales l k := by
  unfold DGModal.massMatrix DGModal.bilinearFormNaturalToMy DGModal.massMatrixNatural
  rcases le_total k l with h | h
  · rcases eq_or_lt_of_le h with rfl | hlt
    · ring
    · rw [if_pos h, if_neg (by omega)]
      ring
  · rcases eq_or_lt_of_le h with rfl | hlt
    · ring
    · rw [if_neg (by omega), if_pos h]
      ring

/-! ## `OperatorDiffusionMFD`: discretization fallback chains

Source (`part_010`): `CreateMassMatrices_` (lines 828-892) and
`UpdateMatricesNodal_` (lines 418-463).  `InitDiffusion_`
(lines 898-936) accepts six primary methods but only four secondary
methods (`tpfa`, `optSparsity`, `supportOperator`, `polyhedraScaled`);
`validSecondary` records that setup constraint.  The WhetStone status
codes are read only through the tests `ok != OK` and `ok == FAILED`,
so the model keeps three values, `passed` standing for any code that
is neither `OK` nor `FAILED`.  Per cell, the WhetStone generator's
verdict for each method is the oracle `res`; the generators are
deterministic, so a repeated call with the same arguments is the same
verdict. -/

namespace DiffusionMFD

/-- Discretization method selector (`WhetStone::DIFFUSION_*`). -/
inductive MFDMethod where
  | hexMonotone : MFDMethod
  | optMonotonicity : MFDMethod
  | tpfa : MFDMethod
  | optSparsity : MFDMethod
  | supportOperator : MFDMethod
  | polyhedraScaled : MFDMethod
deriving DecidableEq

/-- WhetStone elemental-matrix status (`WHETSTONE_ELEMENTAL_MATRIX_*`). -/
inductive WStatus where
  | ok : WStatus
  | passed : WStatus
  | failed : WStatus
deriving DecidableEq

/-- The monotone variants, the only ones tried in the first phase of
`CreateMassMatrices_`. -/
def isMonotone (m : MFDMethod) : Bool :=
  m = MFDMethod.hexMonotone ∨ m = MFDMethod.optMonotonicity

/-- Methods accepted as `discretization secondary` by `InitDiffusion_`
(any other name raises a configuration error at setup). -/
def validSecondary (m : MFDMethod) : Bool :=
  m = MFDMethod.tpfa ∨ m = MFDMethod.optSparsity ∨
  m = MFDMethod.supportOperator ∨ m = MFDMethod.polyhedraScaled

/-- Per-cell control flow of `CreateMassMatrices_` (non-surface mesh):
the attempted methods in order, and the final status.  Phase one tries
the primary only if it is a monotone variant and moves `method` to the
secondary; phase two runs only while the status is not `OK` and only
dispatches the four non-monotone methods. -/
def massMatrixChain (primary secondary : MFDMethod)
    (res : MFDMethod → WStatus) : List MFDMethod × WStatus :=
  let first : List MFDMethod × WStatus :=
    if primary = MFDMethod.hexMonotone then ([primary], res primary)
    else if primary = MFDMethod.optMonotonicity then ([primary], res primary)
    else ([], WStatus.failed)
  let method := if isMonotone primary then secondary else primary
  if first.2 ≠ WStatus.ok then
    if method = MFDMethod.optSparsity ∨ method = MFDMethod.tpfa ∨
       method = MFDMethod.supportOperator ∨ method = MFDMethod.polyhedraScaled then
      (first.1 ++ [method], res method)
    else first
  else first

/-- Predicate: `CreateMassMatrices_` raises the fatal
"unexpected failure in WhetStone" error for this cell. -/
def massMatrixFatal (primary secondary : MFDMethod)
    (res : MFDMethod → WStatus) : Prop :=
  (massMatrixChain primary secondary res).2 = WStatus.failed

/-- Per-cell control flow of `UpdateMatricesNodal_`: the first attempt
is `StiffnessMatrixMMatrix` when the primary is
optimized-for-monotonicity and the plain `StiffnessMatrix` otherwise;
on any non-`OK` status the cell is recomputed with the plain
`StiffnessMatrix` — the configured secondary is assigned to the local
`method` variable but never consulted. -/
def nodalStatus (primary : MFDMethod) (resMM resStiff : WStatus) : WStatus :=
  let first := if primary = MFDMethod.optMonotonicity then resMM else resStiff
  if first ≠ WStatus.ok then resStiff else first

/-- Predicate: `UpdateMatricesNodal_` raises the fatal
"unexpected failure of LAPACK in WhetStone" error for this cell. -/
def nodalFatal (primary : MFDMethod) (resMM resStiff : WStatus) : Prop :=
  nodalStatus primary resMM resStiff = WStatus.failed

/-- Claim C2 as stated: whenever the configured primary variant
reports failure, the cell is recomputed with the configured secondary
variant, and the fatal error fires exactly when the two-element chain
is exhausted with the status still failed. -/
def FallbackClaim : Prop :=
  ∀ (primary secondary : MFDMethod) (res : MFDMethod → WStatus),
    validSecondary secondary = true →
    (res primary = WStatus.failed →
      secondary ∈ (massMatrixChain primary secondary res).1) ∧
    (massMatrixFatal primary secondary res ↔
      (res primary = WStatus.failed ∧ res secondary = WStatus.failed))

end DiffusionMFD

/-- **C2 counterexample.** Configure primary = TPFA (not a monotone
variant), secondary = optimized-for-sparsity, on a cell where TPFA
fails but the secondary would succeed: `CreateMassMatrices_` never
enters its first phase, runs TPFA once as the fallback dispatch, and
raises the fatal error without ever attempting the configured
secondary — the chain is not escalated and the fatal error fires
although the chain is not exhausted. -/
theorem C2_fallback_counterexample : ¬ DiffusionMFD.FallbackClaim := by
  intro h
  have h2 := h DiffusionMFD.MFDMethod.tpfa DiffusionMFD.MFDMethod.optSparsity
    (fun m => if m = DiffusionMFD.MFDMethod.tpfa then DiffusionMFD.WStatus.failed
              else DiffusionMFD.WStatus.ok) (by decide)
  have h3 := h2.2.mp rfl
  exact absurd h3.2 (by decide)

/-- **C2 (amended).** In `CreateMassMatrices_` the escalation to the
configured secondary happens only when the primary is one of the two
monotone variants: then the secondary is attempted exactly when the
primary's status is not `OK`, and the fatal error fires iff that
secondary attempt still reports failure.  For any other primary the
method is attempted once (through the fallback dispatch) and the fatal
error fires iff that single attempt fails.  In the nodal path the
recomputation uses the plain `StiffnessMatrix` routine regardless of
the configured secondary, with the same fatal-iff-failed rule.  In
all cases a cell whose final status is failed is never silently
ignored: the fatal error is raised. -/
theorem C2_fallback_amended (primary secondary : DiffusionMFD.MFDMethod)
    (res : DiffusionMFD.MFDMethod → DiffusionMFD.WStatus)
    (resMM resStiff : DiffusionMFD.WStatus)
    (hsec : DiffusionMFD.validSecondary secondary = true) :
    (DiffusionMFD.isMonotone primary = true →
      DiffusionMFD.massMatrixChain primary secondary res =
        (if res primary = DiffusionMFD.WStatus.ok then ([primary], DiffusionMFD.WStatus.ok)
         else ([primary, secondary], res secondary))) ∧
    (DiffusionMFD.isMonotone primary = false →
      DiffusionMFD.massMatrixChain primary secondary res = ([primary], res primary)) ∧
    (DiffusionMFD.massMatrixFatal primary secondary res ↔
      (DiffusionMFD.massMatrixChain primary secondary res).2 = DiffusionMFD.WStatus.failed) ∧
    (DiffusionMFD.nodalStatus primary resMM resStiff =
      (if (if primary = DiffusionMFD.MFDMethod.optMonotonicity then resMM else resStiff) ≠
          DiffusionMFD.WStatus.ok
       then resStiff
       else DiffusionMFD.WStatus.ok)) ∧
    (DiffusionMFD.nodalFatal primary resMM resStiff ↔
      DiffusionMFD.nodalStatus primary resMM resStiff = DiffusionMFD.WStatus.failed) := by
  refine ⟨fun hmono => ?_, fun hnot => ?_, Iff.rfl, ?_, Iff.rfl⟩
  · cases primary <;> simp_all [DiffusionMFD.isMonotone, DiffusionMFD.massMatrixChain] <;>
      cases hres : res DiffusionMFD.MFDMethod.hexMonotone <;>
      cases secondary <;> simp_all [DiffusionMFD.validSecondary]
  · cases primary <;> simp_all [DiffusionMFD.isMonotone] <;>
      simp [DiffusionMFD.massMatrixChain, DiffusionMFD.isMonotone]
  · unfold DiffusionMFD.nodalStatus
    by_cases hfirst : (if primary = DiffusionMFD.MFDMethod.optMonotonicity then resMM
        else resStiff) = DiffusionMFD.WStatus.ok
    · simp [hfirst]
    · simp [hfirst]

/-- **C2 witness.** The amended characterization instantiated: a
monotone primary whose generator fails escalates to the secondary;
TPFA as primary is attempted once. -/
theorem C2_fallback_amended_witness :
    DiffusionMFD.massMatrixChain DiffusionMFD.MFDMethod.hexMonotone
        DiffusionMFD.MFDMethod.optSparsity (fun _ => DiffusionMFD.WStatus.failed) =
      ([DiffusionMFD.MFDMethod.hexMonotone, DiffusionMFD.MFDMethod.optSparsity],
        DiffusionMFD.WStatus.failed) ∧
    DiffusionMFD.massMatrixChain DiffusionMFD.MFDMethod.tpfa
        DiffusionMFD.MFDMethod.optSparsity (fun _ => DiffusionMFD.WStatus.failed) =
      ([DiffusionMFD.MFDMethod.tpfa], DiffusionMFD.WStatus.failed) := by
  constructor
  · have h := (C2_fallback_amended DiffusionMFD.MFDMethod.hexMonotone
      DiffusionMFD.MFDMethod.optSparsity (fun _ => DiffusionMFD.WStatus.failed)
      DiffusionMFD.WStatus.ok DiffusionMFD.WStatus.ok (by decide)).1 (by decide)
    rw [h]
    decide
  · have h := (C2_fallback_amended DiffusionMFD.MFDMethod.tpfa
      DiffusionMFD.MFDMethod.optSparsity (fun _ => DiffusionMFD.WStatus.failed)
      DiffusionMFD.WStatus.ok DiffusionMFD.WStatus.ok (by decide)).2.1 (by decide)
    rw [h]

/-! ## `OperatorDiffusionMFD::UpdateMatricesTPFA_` (part_010, lines 469-529)

Two passes: (1) accumulate, into `Ttmp[f]`, the half-cell
contributions `1 / Mff(n,n)` over the cells containing `f`, skipping
every cell whose permeability tensor is exactly zero
(`Kc.isZero()`); (2) for each owned face, either emit the zero local
matrix when `Ttmp[f] == 0.0` or build the one/two-cell matrix from
`coef = 1 / Ttmp[f]`.

`MFD3D_Diffusion::MassMatrixInverseTPFA` is not under `src/`.
Modelled from the spec: "the TPFA variant computes one scalar
transmissibility per face from half-cell contributions"; its diagonal
for cell `c`/local face `n` is the oracle `halfM c n`, and the spec's
restriction of permeability tensors to SPD values is reflected in the
hypothesis that a cell whose tensor is not exactly zero has nonzero
half-cell diagonals.  To make "no division occurs" checkable, the
embedding also returns the list of every denominator the routine
feeds to a division. -/

namespace DiffusionMFD

/-- The mesh/coefficient data read by `UpdateMatricesTPFA_`. -/
structure TPFAModel where
  ncellsOwned : ℕ
  nfacesOwned : ℕ
  /-- Query `cell_get_faces(c)`: global face ids of cell `c`. -/
  cellFaces : ℕ → List ℕ
  /-- Test `(*K_)[c].isZero()`. -/
  Kzero : ℕ → Bool
  /-- Diagonal `Mff(n,n)` of the TPFA inverse mass matrix (oracle for
  the WhetStone generator, which is outside `src/`). -/
  halfM : ℕ → ℕ → ℚ
  /-- Count `face_get_cells(f).size()`. -/
  faceNCells : ℕ → ℕ

/-- First pass: the accumulated transmissibility field `Ttmp`. -/
def tpfaT (M : TPFAModel) : ℕ → ℚ :=
  (List.range M.ncellsOwned).foldl
    (fun T c =>
      if M.Kzero c then T
      else (M.cellFaces c).enum.foldl
        (fun T2 e => Function.update T2 e.2 (T2 e.2 + 1 / M.halfM c e.1)) T)
    (fun _ => 0)

/-- Denominators of the half-cell reciprocals `1 / Mff(n,n)` actually
evaluated by the first pass (zero-tensor cells contribute none). -/
def tpfaHalfDenoms (M : TPFAModel) : List ℚ :=
  (List.range M.ncellsOwned).flatMap
    (fun c =>
      if M.Kzero c then []
      else (M.cellFaces c).enum.map (fun e => M.halfM c e.1))

/-- Denominators of the transmissibility reciprocals `coef = 1/Ttmp[f]`
actually evaluated by the second pass: faces with `Ttmp[f] == 0.0` are
skipped before any division. -/
def tpfaTDenoms (M : TPFAModel) : List ℚ :=
  (List.range M.nfacesOwned).filterMap
    (fun f => if tpfaT M f = 0 then none else some (tpfaT M f))

/-- Second pass: the local matrix stored for owned face `f` (entries
outside the `faceNCells f`-sized block are 0, matching the dense
matrix of that size). -/
def tpfaFaceMatrix (M : TPFAModel) (f : ℕ) : ℕ → ℕ → ℚ :=
  if tpfaT M f = 0 then fun _ _ => 0
  else
    let coef := 1 / tpfaT M f
    if M.faceNCells f = 2 then
      fun i j => if i < 2 ∧ j < 2 then (if i = j then coef else -coef) else 0
    else
      fun i j => if i = 0 ∧ j = 0 then coef else 0

end DiffusionMFD

/-- **C3.** In the TPFA update, cells with an exactly zero permeability
tensor are skipped by the transmissibility accumulation (the field is
entirely determined by the non-zero-tensor cells), every owned face
whose accumulated transmissibility is exactly `0.0` receives the zero
local matrix and is skipped before the reciprocal is formed, and —
under the spec-modelled guarantee that the TPFA half-cell diagonal of
a non-zero (SPD) tensor is nonzero — every denominator the routine
divides by is nonzero. -/
theorem C3_tpfa_no_division_by_zero (M : DiffusionMFD.TPFAModel)
    (hhalf : ∀ c n, M.Kzero c = false → M.halfM c n ≠ 0) :
    (∀ d ∈ DiffusionMFD.tpfaTDenoms M, d ≠ 0) ∧
    (∀ d ∈ DiffusionMFD.tpfaHalfDenoms M, d ≠ 0) ∧
    (∀ f, DiffusionMFD.tpfaT M f = 0 →
      ∀ i j, DiffusionMFD.tpfaFaceMatrix M f i j = 0) ∧
    (∀ h2 : ℕ → ℕ → ℚ,
      (∀ c, M.Kzero c = false → ∀ n, M.halfM c n = h2 c n) →
      DiffusionMFD.tpfaT M = DiffusionMFD.tpfaT { M with halfM := h2 }) := by
  refine ⟨?_, ?_, ?_, ?_⟩
  · intro d hd
    simp only [DiffusionMFD.tpfaTDenoms, List.mem_filterMap] at hd
    obtain ⟨f, -, hf⟩ := hd
    by_cases hz : DiffusionMFD.tpfaT M f = 0
    · rw [if_pos hz] at hf
      exact absurd hf (by simp)
    · rw [if_neg hz] at hf
      rw [← Option.some_inj.mp hf]
      exact hz
  · intro d hd
    simp only [DiffusionMFD.tpfaHalfDenoms, List.mem_flatMap] at hd
    obtain ⟨c, -, hc⟩ := hd
    by_cases hz : M.Kzero c
    · rw [if_pos hz] at hc
      exact absurd hc (by simp)
    · rw [if_neg hz] at hc
      simp only [List.mem_map] at hc
      obtain ⟨e, -, he⟩ := hc
      rw [← he]
      exact hhalf c e.1 (by simpa using hz)
  · intro f hf i j
    simp [DiffusionMFD.tpfaFaceMatrix, hf]
  · intro h2 hagree
    unfold DiffusionMFD.tpfaT
    refine List.foldl_ext _ _ _ (fun T c hc => ?_)
    by_cases hz : M.Kzero c
    · simp [hz]
    · simp only [hz, if_neg, Bool.false_eq_true, if_false]
      refine List.foldl_ext _ _ _ (fun T2 e he => ?_)
      rw [hagree c (by simpa using hz) e.1]

/-- **C3 witness.** A two-cell model — cell 0 with zero tensor, cell 1
with unit half-contribution on the shared face 0 — instantiating the
guard theorem. -/
theorem C3_tpfa_no_division_by_zero_witness :
    (∀ d ∈ DiffusionMFD.tpfaTDenoms
        ⟨2, 1, fun _ => [0], fun c => c = 0, fun _ _ => 1, fun _ => 2⟩, d ≠ 0) ∧
    (∀ d ∈ DiffusionMFD.tpfaHalfDenoms
        ⟨2, 1, fun _ => [0], fun c => c = 0, fun _ _ => 1, fun _ => 2⟩, d ≠ 0) ∧
    (∀ f, DiffusionMFD.tpfaT
        ⟨2, 1, fun _ => [0], fun c => c = 0, fun _ _ => 1, fun _ => 2⟩ f = 0 →
      ∀ i j, DiffusionMFD.tpfaFaceMatrix
        ⟨2, 1, fun _ => [0], fun c => c = 0, fun _ _ => 1, fun _ => 2⟩ f i j = 0) ∧
    (∀ h2 : ℕ → ℕ → ℚ,
      (∀ c, (⟨2, 1, fun _ => [0], fun c => c = 0, fun _ _ => 1, fun _ => 2⟩ :
          DiffusionMFD.TPFAModel).Kzero c = false → ∀ n,
        (⟨2, 1, fun _ => [0], fun c => c = 0, fun _ _ => 1, fun _ => 2⟩ :
          DiffusionMFD.TPFAModel).halfM c n = h2 c n) →
      DiffusionMFD.tpfaT
        ⟨2, 1, fun _ => [0], fun c => c = 0, fun _ _ => 1, fun _ => 2⟩ =
      DiffusionMFD.tpfaT
        { (⟨2, 1, fun _ => [0], fun c => c = 0, fun _ _ => 1, fun _ => 2⟩ :
            DiffusionMFD.TPFAModel) with halfM := h2 }) :=
  C3_tpfa_no_division_by_zero
    ⟨2, 1, fun _ => [0], fun c => c = 0, fun _ _ => 1, fun _ => 2⟩
    (fun c n _ => one_ne_zero)

/-! ## `OperatorDiffusionMFD::UpdateFlux` (part_010, lines 783-822)

The flux vector is zeroed, then cells are scanned in ascending owned
order; for cell `c` the local vector `v` (face pressures in local
order, then the cell pressure) is multiplied by the cell's shadow
matrix when one was saved (`matrices_shadow[c].NumRows() != 0`) and by
the modified matrix otherwise; each owned face not yet flagged
receives `flux[f] -= av(n) * dirs[n]` and is flagged, so later cells
sharing the face contribute nothing. -/

namespace DiffusionMFD

/-- The data `UpdateFlux` reads: mesh topology with orientations
(`cell_get_faces_and_dirs`), the solution components, the per-cell
local matrices and their optional shadows. -/
structure FluxModel where
  ncellsOwned : ℕ
  nfacesOwned : ℕ
  /-- The `(face id, dir)` pairs of a cell, in local order. -/
  cellFaces : ℕ → List (ℕ × ℤ)
  uFace : ℕ → ℚ
  uCell : ℕ → ℚ
  /-- Matrices `local_op_->matrices[c]`, after boundary conditions. -/
  Amat : ℕ → ℕ → ℕ → ℚ
  /-- Test `matrices_shadow[c].NumRows() != 0`. -/
  hasShadow : ℕ → Bool
  /-- Matrices `local_op_->matrices_shadow[c]` (pre-BC copies). -/
  Ashadow : ℕ → ℕ → ℕ → ℚ

/-- The matrix `UpdateFlux` multiplies by for cell `c`: the shadow if
one was saved, the modified matrix otherwise. -/
def cellOpMatrix (M : FluxModel) (c : ℕ) : ℕ → ℕ → ℚ :=
  if M.hasShadow c then M.Ashadow c else M.Amat c

/-- Row `n` of `A*v` for cell `c`, with
`v = (u_face over local faces, u_cell[c])`. -/
def av (M : FluxModel) (c n : ℕ) : ℚ :=
  (((M.cellFaces c).map (fun e => M.uFace e.1)) ++ [M.uCell c]).enum.foldl
    (fun acc e => acc + cellOpMatrix M c n e.1 * e.2) 0

/-- Body of the face loop: an owned, not-yet-flagged face receives its
flux contribution and is flagged; all other faces are skipped. -/
def fluxFaceStep (nfOwned : ℕ) (g : ℕ → ℚ) (st : (ℕ → ℚ) × (ℕ → Bool))
    (e : ℕ × (ℕ × ℤ)) : (ℕ → ℚ) × (ℕ → Bool) :=
  if e.2.1 < nfOwned ∧ st.2 e.2.1 = false then
    (Function.update st.1 e.2.1 (st.1 e.2.1 - g e.1 * (e.2.2 : ℚ)),
     Function.update st.2 e.2.1 true)
  else st

/-- Face loop of one cell of `UpdateFlux`. -/
def fluxCell (M : FluxModel) (st : (ℕ → ℚ) × (ℕ → Bool)) (c : ℕ) :
    (ℕ → ℚ) × (ℕ → Bool) :=
  (M.cellFaces c).enum.foldl (fluxFaceStep M.nfacesOwned (av M c)) st

/-- Model of `OperatorDiffusionMFD::UpdateFlux`: flux zeroed, flags cleared,
cells scanned in ascending owned order. -/
def updateFlux (M : FluxModel) : (ℕ → ℚ) × (ℕ → Bool) :=
  (List.range M.ncellsOwned).foldl (fluxCell M) (fun _ => 0, fun _ => false)

theorem snd_mem_of_mem_enumFrom {β : Type} {e : ℕ × β} :
    ∀ (L : List β) (k : ℕ), e ∈ List.enumFrom k L → e.2 ∈ L := by
  intro L
  induction L with
  | nil => intro k h; simp [List.enumFrom] at h
  | cons x xs ih =>
    intro k h
    simp only [List.enumFrom, List.mem_cons] at h
    rcases h with h | h
    · subst h; exact List.mem_cons_self _ _
    · exact List.mem_cons_of_mem _ (ih (k + 1) h)

/-- A step at a different face leaves face `f` untouched. -/
theorem fluxFaceStep_ne (nfOwned : ℕ) (g : ℕ → ℚ) (st : (ℕ → ℚ) × (ℕ → Bool))
    (e : ℕ × (ℕ × ℤ)) (f : ℕ) (hne : e.2.1 ≠ f) :
    (fluxFaceStep nfOwned g st e).1 f = st.1 f ∧
    (fluxFaceStep nfOwned g st e).2 f = st.2 f := by
  unfold fluxFaceStep
  split_ifs with hc
  · constructor <;>
      simp [Function.update_apply, if_neg (fun hh : f = e.2.1 => hne hh.symm)]
  · exact ⟨rfl, rfl⟩

/-- A step never touches a face whose flag is already set. -/
theorem fluxFaceStep_flagged (nfOwned : ℕ) (g : ℕ → ℚ) (st : (ℕ → ℚ) × (ℕ → Bool))
    (e : ℕ × (ℕ × ℤ)) (f : ℕ) (h : st.2 f = true) :
    (fluxFaceStep nfOwned g st e).1 f = st.1 f ∧
    (fluxFaceStep nfOwned g st e).2 f = true := by
  by_cases hne : e.2.1 = f
  · unfold fluxFaceStep
    split_ifs with hc
    · rw [hne] at hc
      rw [hc.2] at h
      cases h
    · exact ⟨rfl, h⟩
  · have := fluxFaceStep_ne nfOwned g st e f hne
    exact ⟨this.1, this.2.trans h⟩

/-- A face already flagged is never touched again by the face loop. -/
theorem fluxFold_flagged (nfOwned : ℕ) (g : ℕ → ℚ) (f : ℕ) :
    ∀ (L : List (ℕ × (ℕ × ℤ))) (st : (ℕ → ℚ) × (ℕ → Bool)), st.2 f = true →
      (L.foldl (fluxFaceStep nfOwned g) st).1 f = st.1 f ∧
      (L.foldl (fluxFaceStep nfOwned g) st).2 f = true := by
  intro L
  induction L with
  | nil => intro st h; exact ⟨rfl, h⟩
  | cons e L ih =>
    intro st h
    rw [List.foldl_cons]
    have hstep := fluxFaceStep_flagged nfOwned g st e f h
    have hrest := ih (fluxFaceStep nfOwned g st e) hstep.2
    exact ⟨hrest.1.trans hstep.1, hrest.2⟩

/-- A face that never occurs in the scanned list keeps its flux and
flag. -/
theorem fluxFold_absent (nfOwned : ℕ) (g : ℕ → ℚ) (f : ℕ) :
    ∀ (L : List (ℕ × (ℕ × ℤ))) (st : (ℕ → ℚ) × (ℕ → Bool)),
      (∀ e ∈ L, e.2.1 ≠ f) →
      (L.foldl (fluxFaceStep nfOwned g) st).1 f = st.1 f ∧
      (L.foldl (fluxFaceStep nfOwned g) st).2 f = st.2 f := by
  intro L
  induction L with
  | nil => intro st _; exact ⟨rfl, rfl⟩
  | cons e L ih =>
    intro st h
    have hstep := fluxFaceStep_ne nfOwned g st e f (h e (List.mem_cons_self _ _))
    rw [List.foldl_cons]
    have hrest := ih (fluxFaceStep nfOwned g st e)
      (fun e2 he2 => h e2 (List.mem_cons_of_mem _ he2))
    exact ⟨hrest.1.trans hstep.1, hrest.2.trans hstep.2⟩

/-- The first unflagged occurrence of an owned face in the scanned
list writes its flux entry and flags it; everything after is inert. -/
theorem fluxFold_writes (nfOwned : ℕ) (g : ℕ → ℚ) (f : ℕ) (d : ℤ) (n0 : ℕ)
    (L1 L2 : List (ℕ × (ℕ × ℤ))) (st : (ℕ → ℚ) × (ℕ → Bool))
    (hL1 : ∀ e ∈ L1, e.2.1 ≠ f) (hf : f < nfOwned) (hflag : st.2 f = false) :
    ((L1 ++ (n0, (f, d)) :: L2).foldl (fluxFaceStep nfOwned g) st).1 f =
      st.1 f - g n0 * (d : ℚ) ∧
    ((L1 ++ (n0, (f, d)) :: L2).foldl (fluxFaceStep nfOwned g) st).2 f = true := by
  rw [List.foldl_append, List.foldl_cons]
  have habs := fluxFold_absent nfOwned g f L1 st hL1
  set st1 := L1.foldl (fluxFaceStep nfOwned g) st with hst1
  have hcond : ((n0, (f, d)) : ℕ × (ℕ × ℤ)).2.1 < nfOwned ∧ st1.2 ((n0, (f, d)) : ℕ × (ℕ × ℤ)).2.1 = false := by
    exact ⟨hf, habs.2.trans hflag⟩
  have hstep : (fluxFaceStep nfOwned g st1 (n0, (f, d))).1 f = st.1 f - g n0 * (d : ℚ) ∧
      (fluxFaceStep nfOwned g st1 (n0, (f, d))).2 f = true := by
    rw [fluxFaceStep, if_pos hcond]
    constructor
    · show Function.update st1.1 f (st1.1 f - g n0 * (d : ℚ)) f = _
      rw [Function.update_same, habs.1]
    · show Function.update st1.2 f true f = true
      rw [Function.update_same]
  have hrest := fluxFold_flagged nfOwned g f L2 (fluxFaceStep nfOwned g st1 (n0, (f, d))) hstep.2
  exact ⟨hrest.1.trans hstep.1, hrest.2⟩

/-- Cells that do not contain face `f` leave its entries unchanged. -/
theorem fluxCells_absent (M : FluxModel) (f : ℕ) :
    ∀ (C : List ℕ) (st : (ℕ → ℚ) × (ℕ → Bool)),
      (∀ c ∈ C, ∀ p ∈ M.cellFaces c, p.1 ≠ f) →
      (C.foldl (fluxCell M) st).1 f = st.1 f ∧
      (C.foldl (fluxCell M) st).2 f = st.2 f := by
  intro C
  induction C with
  | nil => intro st _; exact ⟨rfl, rfl⟩
  | cons c C ih =>
    intro st h
    rw [List.foldl_cons]
    have hstep := fluxFold_absent M.nfacesOwned (av M c) f ((M.cellFaces c).enum) st
      (fun e he => h c (List.mem_cons_self _ _) e.2 (snd_mem_of_mem_enumFrom _ 0 he))
    have hrest := ih (fluxCell M st c) (fun c2 hc2 => h c2 (List.mem_cons_of_mem _ hc2))
    exact ⟨hrest.1.trans hstep.1, hrest.2.trans hstep.2⟩

/-- Once flagged, a face survives any further cells untouched. -/
theorem fluxCells_flagged (M : FluxModel) (f : ℕ) :
    ∀ (C : List ℕ) (st : (ℕ → ℚ) × (ℕ → Bool)), st.2 f = true →
      (C.foldl (fluxCell M) st).1 f = st.1 f ∧
      (C.foldl (fluxCell M) st).2 f = true := by
  intro C
  induction C with
  | nil => intro st h; exact ⟨rfl, h⟩
  | cons c C ih =>
    intro st h
    rw [List.foldl_cons]
    have hstep := fluxFold_flagged M.nfacesOwned (av M c) f ((M.cellFaces c).enum) st h
    have hrest := ih (fluxCell M st c) hstep.2
    exact ⟨hrest.1.trans hstep.1, hrest.2⟩

end DiffusionMFD

/-- **C10.** `UpdateFlux` writes each owned face's flux entry exactly
once: the entry comes from the first cell, in ascending owned-cell
order, that contains the face (the value `-av(n0)*dir(n0)` at the
face's first local position in that cell), computed with the cell's
shadow (pre-boundary-condition) matrix whenever one was saved and with
the modified matrix otherwise; later cells sharing the face find the
flag set and neither overwrite nor add to the entry.  (Determinism of
two calls on identical inputs is immediate: `updateFlux` is a function
of the model.) -/
theorem C10_update_flux_first_cell (M : DiffusionMFD.FluxModel) (f c0 : ℕ)
    (d0 : ℤ) (fs1 fs2 : List (ℕ × ℤ))
    (hc0 : c0 < M.ncellsOwned)
    (hf : f < M.nfacesOwned)
    (hfirstcell : ∀ c, c < c0 → ∀ p ∈ M.cellFaces c, p.1 ≠ f)
    (hsplit : M.cellFaces c0 = fs1 ++ (f, d0) :: fs2)
    (hfs1 : ∀ p ∈ fs1, p.1 ≠ f) :
    (DiffusionMFD.updateFlux M).1 f =
      -(DiffusionMFD.av M c0 fs1.length * (d0 : ℚ)) ∧
    (DiffusionMFD.updateFlux M).2 f = true ∧
    (M.hasShadow c0 = true → DiffusionMFD.cellOpMatrix M c0 = M.Ashadow c0) ∧
    (M.hasShadow c0 = false → DiffusionMFD.cellOpMatrix M c0 = M.Amat c0) := by
  have hrange : List.range M.ncellsOwned =
      List.range c0 ++ c0 :: List.range' (c0 + 1) (M.ncellsOwned - c0 - 1) := by
    rw [List.range_eq_range']
    have h2 : M.ncellsOwned = (M.ncellsOwned - c0 - 1 + 1) + c0 := by omega
    rw [h2, ← List.range'_append 0 c0 (M.ncellsOwned - c0 - 1 + 1) 1]
    rw [List.range'_succ]
    simp [List.range_eq_range']
  have henum : (M.cellFaces c0).enum =
      List.enumFrom 0 fs1 ++ (fs1.length, (f, d0)) :: List.enumFrom (fs1.length + 1) fs2 := by
    rw [hsplit, List.enum_eq_enumFrom, List.enumFrom_append]
    simp [List.enumFrom]
  unfold DiffusionMFD.updateFlux
  rw [hrange, List.foldl_append, List.foldl_cons]
  have habs := DiffusionMFD.fluxCells_absent M f (List.range c0)
    ((fun _ => 0 : ℕ → ℚ), (fun _ => false : ℕ → Bool))
    (fun c hc => hfirstcell c (List.mem_range.mp hc))
  set st1 := (List.range c0).foldl (DiffusionMFD.fluxCell M)
    ((fun _ => 0 : ℕ → ℚ), (fun _ => false : ℕ → Bool)) with hst1
  have hwrite := DiffusionMFD.fluxFold_writes M.nfacesOwned (DiffusionMFD.av M c0)
    f d0 fs1.length (List.enumFrom 0 fs1) (List.enumFrom (fs1.length + 1) fs2) st1
    (fun e he => hfs1 e.2 (DiffusionMFD.snd_mem_of_mem_enumFrom _ 0 he))
    hf habs.2
  have hcellval : (DiffusionMFD.fluxCell M st1 c0).1 f = -(DiffusionMFD.av M c0 fs1.length * (d0 : ℚ)) ∧
      (DiffusionMFD.fluxCell M st1 c0).2 f = true := by
    unfold DiffusionMFD.fluxCell
    rw [henum]
    refine ⟨hwrite.1.trans ?_, hwrite.2⟩
    rw [habs.1]
    ring
  have hrest := DiffusionMFD.fluxCells_flagged M f
    (List.range' (c0 + 1) (M.ncellsOwned - c0 - 1)) (DiffusionMFD.fluxCell M st1 c0)
    hcellval.2
  refine ⟨hrest.1.trans hcellval.1, hrest.2, fun h => ?_, fun h => ?_⟩
  · unfold DiffusionMFD.cellOpMatrix
    rw [h]
    simp
  · unfold DiffusionMFD.cellOpMatrix
    rw [h]
    simp

/-- **C10 witness.** Two unit cells sharing face 1: the face's flux is
taken from cell 0 (which has a saved shadow matrix), cell 1 leaves it
alone. -/
theorem C10_update_flux_first_cell_witness :
    (DiffusionMFD.updateFlux
        ⟨2, 3, (fun c => if c = 0 then [(0, 1), (1, 1)] else [(1, -1), (2, 1)]),
         (fun _ => 2), (fun _ => 5), (fun _ _ _ => 3),
         (fun c => c = 0), (fun _ _ _ => 7)⟩).1 1 =
      -(DiffusionMFD.av
        ⟨2, 3, (fun c => if c = 0 then [(0, 1), (1, 1)] else [(1, -1), (2, 1)]),
         (fun _ => 2), (fun _ => 5), (fun _ _ _ => 3),
         (fun c => c = 0), (fun _ _ _ => 7)⟩ 0 1 * ((1 : ℤ) : ℚ)) ∧
    (DiffusionMFD.updateFlux
        ⟨2, 3, (fun c => if c = 0 then [(0, 1), (1, 1)] else [(1, -1), (2, 1)]),
         (fun _ => 2), (fun _ => 5), (fun _ _ _ => 3),
         (fun c => c = 0), (fun _ _ _ => 7)⟩).2 1 = true ∧
    ((⟨2, 3, (fun c => if c = 0 then [(0, 1), (1, 1)] else [(1, -1), (2, 1)]),
         (fun _ => 2), (fun _ => 5), (fun _ _ _ => 3),
         (fun c => c = 0), (fun _ _ _ => 7)⟩ : DiffusionMFD.FluxModel).hasShadow 0 = true →
      DiffusionMFD.cellOpMatrix
        ⟨2, 3, (fun c => if c = 0 then [(0, 1), (1, 1)] else [(1, -1), (2, 1)]),
         (fun _ => 2), (fun _ => 5), (fun _ _ _ => 3),
         (fun c => c = 0), (fun _ _ _ => 7)⟩ 0 =
      (⟨2, 3, (fun c => if c = 0 then [(0, 1), (1, 1)] else [(1, -1), (2, 1)]),
         (fun _ => 2), (fun _ => 5), (fun _ _ _ => 3),
         (fun c => c = 0), (fun _ _ _ => 7)⟩ : DiffusionMFD.FluxModel).Ashadow 0) ∧
    ((⟨2, 3, (fun c => if c = 0 then [(0, 1), (1, 1)] else [(1, -1), (2, 1)]),
         (fun _ => 2), (fun _ => 5), (fun _ _ _ => 3),
         (fun c => c = 0), (fun _ _ _ => 7)⟩ : DiffusionMFD.FluxModel).hasShadow 0 = false →
      DiffusionMFD.cellOpMatrix
        ⟨2, 3, (fun c => if c = 0 then [(0, 1), (1, 1)] else [(1, -1), (2, 1)]),
         (fun _ => 2), (fun _ => 5), (fun _ _ _ => 3),
         (fun c => c = 0), (fun _ _ _ => 7)⟩ 0 =
      (⟨2, 3, (fun c => if c = 0 then [(0, 1), (1, 1)] else [(1, -1), (2, 1)]),
         (fun _ => 2), (fun _ => 5), (fun _ _ _ => 3),
         (fun c => c = 0), (fun _ _ _ => 7)⟩ : DiffusionMFD.FluxModel).Amat 0) :=
  C10_update_flux_first_cell
    ⟨2, 3, (fun c => if c = 0 then [(0, 1), (1, 1)] else [(1, -1), (2, 1)]),
     (fun _ => 2), (fun _ => 5), (fun _ _ _ => 3),
     (fun c => c = 0), (fun _ _ _ => 7)⟩ 1 0 1 [(0, 1)] []
    (by decide) (by decide)
    (by intro c hc; omega)
    (by simp)
    (by intro p hp; simp at hp; subst hp; decide)

/-! ## `OperatorDiffusionMFD::ApplyBCs` (part_010, lines 535-597),
FACE+CELL schema

Per owned cell `c` with local faces `fs` (`nf = fs.length`, local
matrix indices `0..nf`, the cell row/column at index `nf`), the face
loop dispatches on the boundary-condition marker of each face.  On the
first Dirichlet or Mixed face the local matrix is copied into the
shadow (`flag`).  A Dirichlet face `f` at local position `n` with
value `v` runs, over every local row `m` (including `m = n`),
`rhs_face[faces[m]] -= Acell(m,n)*v; Acell(n,m) = Acell(m,n) = 0`;
then, when `primary`, `rhs_face[f] = v` and `Acell(n,n) = 1`; then
`rhs_cell[c] -= Acell(nf,n)*v` and the cell-row/cell-column couplings
`Acell(nf,n)`, `Acell(n,nf)` are zeroed.  Neumann subtracts
`v*area(f)` from `rhs_face[f]`; Mixed subtracts the same and adds
`bc_mixed[f]*area(f)` to the diagonal.  (The call's opening
`PutScalarGhosted(0.)` and the closing gather touch only ghost
entries, absent from this single-process model.) -/

namespace DiffusionMFD

/-- Boundary-condition markers (`OPERATOR_BC_*`). -/
inductive BCType where
  | null : BCType
  | dirichlet : BCType
  | neumann : BCType
  | mixed : BCType
deriving DecidableEq

/-- Write one entry of a dense local matrix. -/
def setEntry (A : ℕ → ℕ → ℚ) (i j : ℕ) (x : ℚ) : ℕ → ℕ → ℚ :=
  fun i2 j2 => if i2 = i ∧ j2 = j then x else A i2 j2

theorem setEntry_apply (A : ℕ → ℕ → ℚ) (i j : ℕ) (x : ℚ) (a b : ℕ) :
    setEntry A i j x a b = if a = i ∧ b = j then x else A a b := rfl

/-- One iteration of the Dirichlet elimination's inner `m` loop, at
the enumerated entry `e = (m, faces[m])`: subtract `Acell(m,n)*v` from
the global face right-hand side, then zero `Acell(n,m)` and
`Acell(m,n)`. -/
def dirichletRowStep (n : ℕ) (v : ℚ) (p : (ℕ → ℚ) × (ℕ → ℕ → ℚ))
    (e : ℕ × ℕ) : (ℕ → ℚ) × (ℕ → ℕ → ℚ) :=
  (Function.update p.1 e.2 (p.1 e.2 - p.2 e.1 n * v),
   setEntry (setEntry p.2 n e.1 0) e.1 n 0)

/-- State carried through one cell of `ApplyBCs`: the global face and
cell right-hand sides, the cell's local matrix, and its shadow slot. -/
structure CellBCState where
  rhsF : ℕ → ℚ
  rhsC : ℕ → ℚ
  A : ℕ → ℕ → ℚ
  shadow : Option (ℕ → ℕ → ℚ)

/-- Dirichlet branch for local face `n` (global id `f`, value `v`) of
cell `c` with face list `fs`: inner row loop, optional primary
override (`rhs_face[f] = v`, unit diagonal), cell-row subtraction and
cell-coupling zeroing. -/
def dirichletElim (primary : Bool) (fs : List ℕ) (c n f : ℕ) (v : ℚ)
    (st : CellBCState) : CellBCState :=
  let inner := fs.enum.foldl (dirichletRowStep n v) (st.rhsF, st.A)
  let rhsF1 := if primary then Function.update inner.1 f v else inner.1
  let A1 := if primary then setEntry inner.2 n n 1 else inner.2
  { rhsF := rhsF1,
    rhsC := Function.update st.rhsC c (st.rhsC c - A1 fs.length n * v),
    A := setEntry (setEntry A1 fs.length n 0) n fs.length 0,
    shadow := st.shadow }

/-- Face-loop body of `ApplyBCs` for cell `c`: dispatch on the
boundary marker of the enumerated face `e = (n, faces[n])`; the `Bool`
component is the copy-on-first-modification `flag`. -/
def bcFaceStep (primary : Bool) (fs : List ℕ) (c : ℕ) (bcT : ℕ → BCType)
    (bcV bcMix area : ℕ → ℚ) (st : CellBCState × Bool) (e : ℕ × ℕ) :
    CellBCState × Bool :=
  match bcT e.2 with
  | BCType.dirichlet =>
      let st1 := if st.2 then { st.1 with shadow := some st.1.A } else st.1
      (dirichletElim primary fs c e.1 e.2 (bcV e.2) st1, false)
  | BCType.neumann =>
      ({ st.1 with
          rhsF := Function.update st.1.rhsF e.2
            (st.1.rhsF e.2 - bcV e.2 * area e.2) }, st.2)
  | BCType.mixed =>
      let st1 := if st.2 then { st.1 with shadow := some st.1.A } else st.1
      ({ st1 with
          rhsF := Function.update st1.rhsF e.2
            (st1.rhsF e.2 - bcV e.2 * area e.2),
          A := setEntry st1.A e.1 e.1
            (st1.A e.1 e.1 + bcMix e.2 * area e.2) }, false)
  | BCType.null => st

/-- Model of `ApplyBCs`, FACE+CELL branch, restricted to one owned cell: the
face loop starting with a fresh copy flag. -/
def applyBCsCell (primary : Bool) (c : ℕ) (fs : List ℕ) (bcT : ℕ → BCType)
    (bcV bcMix area : ℕ → ℚ) (st0 : CellBCState) : CellBCState :=
  (fs.enum.foldl (bcFaceStep primary fs c bcT bcV bcMix area) (st0, true)).1

/-- Global state of the FACE+CELL `ApplyBCs` sweep. -/
structure BCGlobalState where
  rhsF : ℕ → ℚ
  rhsC : ℕ → ℚ
  mats : ℕ → ℕ → ℕ → ℚ
  shadows : ℕ → Option (ℕ → ℕ → ℚ)

/-- Model of `OperatorDiffusionMFD::ApplyBCs`, FACE+CELL branch: the loop over
owned cells. -/
def applyBCsFaceCell (primary : Bool) (ncellsOwned : ℕ)
    (cellFaces : ℕ → List ℕ) (bcT : ℕ → BCType) (bcV bcMix area : ℕ → ℚ)
    (g : BCGlobalState) : BCGlobalState :=
  (List.range ncellsOwned).foldl
    (fun g2 c =>
      let res := applyBCsCell primary c (cellFaces c) bcT bcV bcMix area
        { rhsF := g2.rhsF, rhsC := g2.rhsC, A := g2.mats c, shadow := g2.shadows c }
      { rhsF := res.rhsF, rhsC := res.rhsC,
        mats := Function.update g2.mats c res.A,
        shadows := Function.update g2.shadows c res.shadow })
    g

/-- Claim C1's account of a Dirichlet face under non-primary assembly:
the right-hand-side entry of the eliminated face itself is not
modified (only "every **other** local row m" is debited, and the
override is "skipped ... only zeroing the matrix coupling").  Stated
for a cell whose other faces carry no boundary condition. -/
def DirichletNonPrimaryRhsClaim : Prop :=
  ∀ (c : ℕ) (fs1 fs2 : List ℕ) (f : ℕ) (bcT : ℕ → BCType)
    (bcV bcMix area : ℕ → ℚ) (st : CellBCState),
    bcT f = BCType.dirichlet →
    (∀ g ∈ fs1, bcT g = BCType.null) →
    (∀ g ∈ fs2, bcT g = BCType.null) →
    (fs1 ++ f :: fs2).Nodup →
    (applyBCsCell false c (fs1 ++ f :: fs2) bcT bcV bcMix area st).rhsF f =
      st.rhsF f

end DiffusionMFD

/-- **C1 counterexample.** One cell with a single Dirichlet face `f = 0`
(value 1), local matrix identically 1, zero right-hand side,
non-primary assembly: the inner loop runs over **every** local row `m`
including `m = n`, so `rhs_face[f]` is debited by `Acell(n,n)*v = 1`
and ends at `-1`, while the claim (elimination touching only the other
rows, override skipped) predicts it stays `0`. -/
theorem C1_applybc_counterexample : ¬ DiffusionMFD.DirichletNonPrimaryRhsClaim := by
  intro h
  have h2 := h 0 [] [] 0 (fun _ => DiffusionMFD.BCType.dirichlet)
    (fun _ => 1) (fun _ => 0) (fun _ => 1)
    ⟨(fun _ => 0), (fun _ => 0), (fun _ _ => 1), none⟩
    rfl (by simp) (by simp) (by simp)
  rw [show (([] : List ℕ) ++ 0 :: []) = [0] from rfl] at h2
  have h3 : (DiffusionMFD.applyBCsCell false 0 [0] (fun _ => DiffusionMFD.BCType.dirichlet)
      (fun _ => 1) (fun _ => 0) (fun _ => 1)
      ⟨(fun _ => 0), (fun _ => 0), (fun _ _ => 1), none⟩).rhsF 0 = -1 := by
    simp [DiffusionMFD.applyBCsCell, DiffusionMFD.bcFaceStep, DiffusionMFD.dirichletElim,
      DiffusionMFD.dirichletRowStep, DiffusionMFD.setEntry, List.enum, List.enumFrom]
  rw [h3] at h2
  norm_num at h2

namespace DiffusionMFD

/-- The local matrix after the inner Dirichlet row loop: column `n`
and row `n` zeroed across the local indices `[k, k+len)`, remaining
entries intact. -/
def zeroCross (A : ℕ → ℕ → ℚ) (n k len : ℕ) : ℕ → ℕ → ℚ := fun i j =>
  if i = n ∧ k ≤ j ∧ j < k + len then 0
  else if j = n ∧ k ≤ i ∧ i < k + len then 0
  else A i j

/-- Characterization of the inner Dirichlet row loop over the
enumerated faces `enumFrom k gs` (distinct global face ids): the
matrix becomes `zeroCross`, the right-hand side of the face at local
position `k+m` is debited by `Acell(k+m, n)*v`, and every other face
entry is untouched. -/
theorem dirichletRow_fold (n : ℕ) (v : ℚ) :
    ∀ (gs : List ℕ) (k : ℕ) (rhsF : ℕ → ℚ) (A : ℕ → ℕ → ℚ), gs.Nodup →
      (((List.enumFrom k gs).foldl (dirichletRowStep n v) (rhsF, A)).2 =
        zeroCross A n k gs.length) ∧
      (∀ (m : ℕ) (hm : m < gs.length),
        ((List.enumFrom k gs).foldl (dirichletRowStep n v) (rhsF, A)).1
            (gs.get ⟨m, hm⟩) =
          rhsF (gs.get ⟨m, hm⟩) - A (k + m) n * v) ∧
      (∀ g, g ∉ gs →
        ((List.enumFrom k gs).foldl (dirichletRowStep n v) (rhsF, A)).1 g =
          rhsF g) := by
  intro gs
  induction gs with
  | nil =>
    intro k rhsF A _
    refine ⟨?_, fun m hm => absurd hm (by simp), fun g _ => rfl⟩
    have he : List.enumFrom k ([] : List ℕ) = [] := rfl
    rw [he, List.foldl_nil]
    funext i j
    unfold zeroCross
    simp only [List.length_nil, Nat.add_zero]
    rw [if_neg (by rintro ⟨-, h1, h2⟩; omega), if_neg (by rintro ⟨-, h1, h2⟩; omega)]
  | cons g0 gt ih =>
    intro k rhsF A hnd
    have hnd2 := hnd
    rw [List.nodup_cons] at hnd2
    have hstep : List.enumFrom k (g0 :: gt) = (k, g0) :: List.enumFrom (k + 1) gt := by
      simp [List.enumFrom]
    rw [hstep, List.foldl_cons]
    set rhsF1 := Function.update rhsF g0 (rhsF g0 - A k n * v) with hrhsF1
    set A1 := setEntry (setEntry A n k 0) k n 0 with hA1
    have hstep2 : dirichletRowStep n v (rhsF, A) (k, g0) = (rhsF1, A1) := rfl
    rw [hstep2]
    obtain ⟨iha, ihb, ihc⟩ := ih (k + 1) rhsF1 A1 hnd2.2
    refine ⟨?_, ?_, ?_⟩
    · rw [iha]
      funext i j
      rw [hA1]
      unfold zeroCross setEntry
      simp only [List.length_cons]
      split_ifs <;> first | rfl | omega
    · intro m hm
      match m with
      | 0 =>
        have hget : (g0 :: gt).get ⟨0, hm⟩ = g0 := rfl
        rw [hget, ihc g0 hnd2.1, hrhsF1, Function.update_same]
        rw [Nat.add_zero]
      | Nat.succ m2 =>
        have hm2 : m2 < gt.length := by
          simpa using hm
        have hget : (g0 :: gt).get ⟨m2 + 1, hm⟩ = gt.get ⟨m2, hm2⟩ := rfl
        rw [hget, ihb m2 hm2]
        have hne : gt.get ⟨m2, hm2⟩ ≠ g0 := by
          intro heq
          exact hnd2.1 (heq ▸ List.get_mem gt m2 hm2)
        rw [hrhsF1, Function.update_apply, if_neg hne]
        have hAeq : A1 (k + 1 + m2) n = A (k + (m2 + 1)) n := by
          rw [hA1]
          unfold setEntry
          rw [if_neg (by rintro ⟨h1, -⟩; omega), if_neg (by rintro ⟨h1, h2⟩; omega)]
          congr 1
          omega
        rw [hAeq]
    · intro g hg
      rw [List.mem_cons, not_or] at hg
      rw [ihc g hg.2, hrhsF1, Function.update_apply, if_neg hg.1]

/-- Faces carrying no boundary condition are skipped by the face
loop. -/
theorem bcFold_null (primary : Bool) (fs : List ℕ) (c : ℕ) (bcT : ℕ → BCType)
    (bcV bcMix area : ℕ → ℚ) :
    ∀ (L : List (ℕ × ℕ)) (st : CellBCState × Bool),
      (∀ e ∈ L, bcT e.2 = BCType.null) →
      L.foldl (bcFaceStep primary fs c bcT bcV bcMix area) st = st := by
  intro L
  induction L with
  | nil => intro st _; rfl
  | cons e L ih =>
    intro st h
    rw [List.foldl_cons]
    have hstep : bcFaceStep primary fs c bcT bcV bcMix area st e = st := by
      unfold bcFaceStep
      rw [h e (List.mem_cons_self _ _)]
    rw [hstep]
    exact ih st (fun e2 he2 => h e2 (List.mem_cons_of_mem _ he2))

end DiffusionMFD

/-- **C1 (amended).** Dirichlet elimination in the FACE+CELL
`ApplyBCs`, for a cell whose local face list is `fs1 ++ f :: fs2`
(local Dirichlet position `n = fs1.length`, cell row `nf`) with no
boundary condition on the other faces: a shadow copy of the original
matrix is saved; the right-hand side of **every** local face row `m` —
the eliminated row `n` included, which is what the original claim
misses — is debited by `Acell(m,n)*v`, and the cell row by
`Acell(nf,n)*v`; row `n` and column `n` are zeroed including the
cell-row/cell-column coupling; exactly when `primary` is true the RHS
slot of `f` is then overwritten with `v` and the diagonal set to 1,
while under non-primary assembly the slot keeps the debit
`-Acell(n,n)*v` and the diagonal is left at 0; all other entries are
untouched. -/
theorem C1_applybc_amended (primary : Bool) (c : ℕ) (fs1 fs2 : List ℕ) (f : ℕ)
    (bcT : ℕ → DiffusionMFD.BCType) (bcV bcMix area : ℕ → ℚ)
    (st : DiffusionMFD.CellBCState)
    (hT : bcT f = DiffusionMFD.BCType.dirichlet)
    (hnull1 : ∀ g ∈ fs1, bcT g = DiffusionMFD.BCType.null)
    (hnull2 : ∀ g ∈ fs2, bcT g = DiffusionMFD.BCType.null)
    (hnd : (fs1 ++ f :: fs2).Nodup) :
    (DiffusionMFD.applyBCsCell primary c (fs1 ++ f :: fs2) bcT bcV bcMix area st).shadow =
      some st.A ∧
    (∀ (m : ℕ) (hm : m < (fs1 ++ f :: fs2).length), m ≠ fs1.length →
      (DiffusionMFD.applyBCsCell primary c (fs1 ++ f :: fs2) bcT bcV bcMix area st).rhsF
          ((fs1 ++ f :: fs2).get ⟨m, hm⟩) =
        st.rhsF ((fs1 ++ f :: fs2).get ⟨m, hm⟩) - st.A m fs1.length * bcV f) ∧
    ((DiffusionMFD.applyBCsCell primary c (fs1 ++ f :: fs2) bcT bcV bcMix area st).rhsF f =
      if primary then bcV f else st.rhsF f - st.A fs1.length fs1.length * bcV f) ∧
    (∀ g, g ∉ fs1 ++ f :: fs2 →
      (DiffusionMFD.applyBCsCell primary c (fs1 ++ f :: fs2) bcT bcV bcMix area st).rhsF g =
        st.rhsF g) ∧
    ((DiffusionMFD.applyBCsCell primary c (fs1 ++ f :: fs2) bcT bcV bcMix area st).rhsC c =
      st.rhsC c - st.A (fs1 ++ f :: fs2).length fs1.length * bcV f) ∧
    (∀ c2, c2 ≠ c →
      (DiffusionMFD.applyBCsCell primary c (fs1 ++ f :: fs2) bcT bcV bcMix area st).rhsC c2 =
        st.rhsC c2) ∧
    (∀ j, j ≤ (fs1 ++ f :: fs2).length → j ≠ fs1.length →
      (DiffusionMFD.applyBCsCell primary c (fs1 ++ f :: fs2) bcT bcV bcMix area st).A
        fs1.length j = 0) ∧
    (∀ i, i ≤ (fs1 ++ f :: fs2).length → i ≠ fs1.length →
      (DiffusionMFD.applyBCsCell primary c (fs1 ++ f :: fs2) bcT bcV bcMix area st).A
        i fs1.length = 0) ∧
    ((DiffusionMFD.applyBCsCell primary c (fs1 ++ f :: fs2) bcT bcV bcMix area st).A
        fs1.length fs1.length = if primary then 1 else 0) ∧
    (∀ i j, i ≠ fs1.length → j ≠ fs1.length →
      (DiffusionMFD.applyBCsCell primary c (fs1 ++ f :: fs2) bcT bcV bcMix area st).A i j =
        st.A i j) := by
  have hn : fs1.length < (fs1 ++ f :: fs2).length := by
    simp
  have hgetn : (fs1 ++ f :: fs2).get ⟨fs1.length, hn⟩ = f := by
    rw [List.get_eq_getElem, List.getElem_append_right (Nat.le_refl _)]
    simp
  -- the face loop reduces to the single Dirichlet elimination
  have henum : (fs1 ++ f :: fs2).enum =
      List.enumFrom 0 fs1 ++ (fs1.length, f) :: List.enumFrom (fs1.length + 1) fs2 := by
    rw [List.enum_eq_enumFrom, List.enumFrom_append]
    simp [List.enumFrom]
  have hres : DiffusionMFD.applyBCsCell primary c (fs1 ++ f :: fs2) bcT bcV bcMix area st =
      DiffusionMFD.dirichletElim primary (fs1 ++ f :: fs2) c fs1.length f (bcV f)
        { st with shadow := some st.A } := by
    unfold DiffusionMFD.applyBCsCell
    rw [henum, List.foldl_append,
      DiffusionMFD.bcFold_null primary _ c bcT bcV bcMix area _ _
        (fun e he => hnull1 e.2 (DiffusionMFD.snd_mem_of_mem_enumFrom _ 0 he)),
      List.foldl_cons,
      DiffusionMFD.bcFold_null primary _ c bcT bcV bcMix area _ _
        (fun e he => hnull2 e.2 (DiffusionMFD.snd_mem_of_mem_enumFrom _ _ he))]
    show (DiffusionMFD.bcFaceStep primary (fs1 ++ f :: fs2) c bcT bcV bcMix area
        (st, true) (fs1.length, f)).1 = _
    unfold DiffusionMFD.bcFaceStep
    rw [hT]
    rfl
  obtain ⟨ha, hb, hc⟩ := DiffusionMFD.dirichletRow_fold fs1.length (bcV f)
    (fs1 ++ f :: fs2) 0 st.rhsF st.A hnd
  rw [← List.enum_eq_enumFrom] at ha hb hc
  rw [hres]
  unfold DiffusionMFD.dirichletElim
  simp only []
  set nf := (fs1 ++ f :: fs2).length with hnf
  set n := fs1.length with hn2
  set inner := (fs1 ++ f :: fs2).enum.foldl (DiffusionMFD.dirichletRowStep n (bcV f))
    (st.rhsF, st.A) with hinner
  have hA1 : ∀ i j, (if primary then DiffusionMFD.setEntry inner.2 n n 1 else inner.2) i j =
      if primary ∧ i = n ∧ j = n then 1 else DiffusionMFD.zeroCross st.A n 0 nf i j := by
    intro i j
    rcases primary with _ | _
    · rw [if_neg (by decide), if_neg (by rintro ⟨h2, -⟩; cases h2), ha]
    · rw [if_pos rfl, DiffusionMFD.setEntry_apply, ha]
      by_cases hij : i = n ∧ j = n
      · rw [if_pos hij, if_pos (show (true = true) ∧ (i = n ∧ j = n) from ⟨rfl, hij⟩)]
      · rw [if_neg hij, if_neg (fun h => hij h.2)]
  refine ⟨trivial, ?_, ?_, ?_, ?_, ?_, ?_, ?_, ?_, ?_⟩
  · -- other face rows debited
    intro m hm hmn
    have hne : (fs1 ++ f :: fs2).get ⟨m, hm⟩ ≠ f := by
      intro heq
      have h2 := (List.Nodup.get_inj_iff hnd).mp (heq.trans hgetn.symm)
      exact hmn (congrArg Fin.val h2)
    show (if primary then Function.update inner.1 f (bcV f) else inner.1) _ = _
    have hbv := hb m hm
    rw [Nat.zero_add] at hbv
    rcases primary with _ | _
    · rw [if_neg (by decide)]
      exact hbv
    · rw [if_pos rfl, Function.update_apply, if_neg hne]
      exact hbv
  · -- the eliminated face's own RHS slot
    show (if primary then Function.update inner.1 f (bcV f) else inner.1) f = _
    rcases primary with _ | _
    · rw [if_neg (by decide), if_neg (by decide)]
      have hbv := hb fs1.length hn
      rw [Nat.zero_add, hgetn] at hbv
      exact hbv
    · rw [if_pos rfl, if_pos rfl, Function.update_same]
  · -- faces outside the cell untouched
    intro g hg
    have hgf : g ≠ f := fun heq => hg (heq ▸ List.mem_append_right _ (List.mem_cons_self _ _))
    show (if primary then Function.update inner.1 f (bcV f) else inner.1) g = _
    rcases primary with _ | _
    · rw [if_neg (by decide)]
      exact hc g hg
    · rw [if_pos rfl, Function.update_apply, if_neg hgf]
      exact hc g hg
  · -- cell row debit
    show Function.update st.rhsC c _ c = _
    rw [Function.update_same, hA1 nf n]
    have h1 : ¬ (primary = true ∧ nf = n ∧ n = n) := by
      rintro ⟨-, h2, -⟩
      omega
    rw [if_neg h1]
    unfold DiffusionMFD.zeroCross
    rw [if_neg (by rintro ⟨h2, -⟩; omega), if_neg (by rintro ⟨-, -, h2⟩; omega)]
  · -- other cells' RHS untouched
    intro c2 hc2
    show Function.update st.rhsC c _ c2 = _
    rw [Function.update_apply, if_neg hc2]
  · -- row n zeroed (cell column included)
    intro j hj hjn
    show DiffusionMFD.setEntry (DiffusionMFD.setEntry _ nf n 0) n nf 0 n j = 0
    rw [DiffusionMFD.setEntry_apply]
    by_cases hjf : j = nf
    · rw [if_pos ⟨rfl, hjf⟩]
    · rw [if_neg (fun h => hjf h.2), DiffusionMFD.setEntry_apply,
        if_neg (by rintro ⟨h2, -⟩; omega), hA1]
      rw [if_neg (by rintro ⟨-, -, h2⟩; exact hjn h2)]
      unfold DiffusionMFD.zeroCross
      rw [if_pos ⟨rfl, Nat.zero_le _, by omega⟩]
  · -- column n zeroed (cell row included)
    intro i hi hin
    show DiffusionMFD.setEntry (DiffusionMFD.setEntry _ nf n 0) n nf 0 i n = 0
    rw [DiffusionMFD.setEntry_apply, if_neg (by rintro ⟨h2, -⟩; exact hin h2),
      DiffusionMFD.setEntry_apply]
    by_cases hif : i = nf
    · rw [if_pos ⟨hif, rfl⟩]
    · rw [if_neg (fun h => hif h.1), hA1]
      rw [if_neg (by rintro ⟨-, h2, -⟩; exact hin h2)]
      unfold DiffusionMFD.zeroCross
      rw [if_neg (by rintro ⟨h2, -⟩; exact hin h2)]
      rw [if_pos ⟨rfl, Nat.zero_le _, by omega⟩]
  · -- diagonal: 1 under primary, 0 otherwise
    show DiffusionMFD.setEntry (DiffusionMFD.setEntry _ nf n 0) n nf 0 n n = _
    rw [DiffusionMFD.setEntry_apply, if_neg (by rintro ⟨-, h2⟩; omega),
      DiffusionMFD.setEntry_apply, if_neg (by rintro ⟨h2, -⟩; omega), hA1]
    rcases primary with _ | _
    · rw [if_neg (by rintro ⟨h2, -⟩; cases h2), if_neg (by decide)]
      unfold DiffusionMFD.zeroCross
      rw [if_pos ⟨rfl, Nat.zero_le _, by omega⟩]
    · rw [if_pos ⟨by trivial, rfl, rfl⟩, if_pos rfl]
  · -- untouched block
    intro i j hin hjn
    show DiffusionMFD.setEntry (DiffusionMFD.setEntry _ nf n 0) n nf 0 i j = _
    rw [DiffusionMFD.setEntry_apply, if_neg (by rintro ⟨h2, -⟩; exact hin h2),
      DiffusionMFD.setEntry_apply, if_neg (by rintro ⟨-, h2⟩; exact hjn h2), hA1,
      if_neg (by rintro ⟨-, h2, -⟩; exact hin h2)]
    unfold DiffusionMFD.zeroCross
    rw [if_neg (by rintro ⟨h2, -⟩; exact hin h2),
      if_neg (by rintro ⟨h2, -⟩; exact hjn h2)]

namespace DiffusionMFD

/-- Boundary markers for the C1 witness cell: Dirichlet on face 0,
nothing on face 1. -/
def c1bcT : ℕ → BCType :=
  fun g => if g = 0 then BCType.dirichlet else BCType.null

/-- Initial state for the C1 witness cell: zero right-hand sides,
all-ones local matrix, empty shadow. -/
def c1st : CellBCState :=
  ⟨fun _ => 0, fun _ => 0, fun _ _ => 1, none⟩

end DiffusionMFD

/-- **C1 witness.** The amended Dirichlet-elimination account
instantiated on a one-cell mesh with faces `[0, 1]`, Dirichlet on
face 0, non-primary assembly. -/
theorem C1_applybc_amended_witness :
    (DiffusionMFD.applyBCsCell false 0 (([] : List ℕ) ++ 0 :: [1]) DiffusionMFD.c1bcT
        (fun _ => 1) (fun _ => 0) (fun _ => 1) DiffusionMFD.c1st).shadow =
      some DiffusionMFD.c1st.A ∧
    (∀ (m : ℕ) (hm : m < (([] : List ℕ) ++ 0 :: [1]).length), m ≠ ([] : List ℕ).length →
      (DiffusionMFD.applyBCsCell false 0 (([] : List ℕ) ++ 0 :: [1]) DiffusionMFD.c1bcT
          (fun _ => 1) (fun _ => 0) (fun _ => 1) DiffusionMFD.c1st).rhsF
          ((([] : List ℕ) ++ 0 :: [1]).get ⟨m, hm⟩) =
        DiffusionMFD.c1st.rhsF ((([] : List ℕ) ++ 0 :: [1]).get ⟨m, hm⟩) -
          DiffusionMFD.c1st.A m ([] : List ℕ).length * (fun _ => (1 : ℚ)) 0) ∧
    ((DiffusionMFD.applyBCsCell false 0 (([] : List ℕ) ++ 0 :: [1]) DiffusionMFD.c1bcT
        (fun _ => 1) (fun _ => 0) (fun _ => 1) DiffusionMFD.c1st).rhsF 0 =
      if false then (fun _ => (1 : ℚ)) 0
      else DiffusionMFD.c1st.rhsF 0 - DiffusionMFD.c1st.A ([] : List ℕ).length ([] : List ℕ).length * (fun _ => (1 : ℚ)) 0) ∧
    (∀ g, g ∉ (([] : List ℕ) ++ 0 :: [1]) →
      (DiffusionMFD.applyBCsCell false 0 (([] : List ℕ) ++ 0 :: [1]) DiffusionMFD.c1bcT
          (fun _ => 1) (fun _ => 0) (fun _ => 1) DiffusionMFD.c1st).rhsF g =
        DiffusionMFD.c1st.rhsF g) ∧
    ((DiffusionMFD.applyBCsCell false 0 (([] : List ℕ) ++ 0 :: [1]) DiffusionMFD.c1bcT
        (fun _ => 1) (fun _ => 0) (fun _ => 1) DiffusionMFD.c1st).rhsC 0 =
      DiffusionMFD.c1st.rhsC 0 -
        DiffusionMFD.c1st.A (([] : List ℕ) ++ 0 :: [1]).length ([] : List ℕ).length * (fun _ => (1 : ℚ)) 0) ∧
    (∀ c2, c2 ≠ 0 →
      (DiffusionMFD.applyBCsCell false 0 (([] : List ℕ) ++ 0 :: [1]) DiffusionMFD.c1bcT
          (fun _ => 1) (fun _ => 0) (fun _ => 1) DiffusionMFD.c1st).rhsC c2 =
        DiffusionMFD.c1st.rhsC c2) ∧
    (∀ j, j ≤ (([] : List ℕ) ++ 0 :: [1]).length → j ≠ ([] : List ℕ).length →
      (DiffusionMFD.applyBCsCell false 0 (([] : List ℕ) ++ 0 :: [1]) DiffusionMFD.c1bcT
          (fun _ => 1) (fun _ => 0) (fun _ => 1) DiffusionMFD.c1st).A ([] : List ℕ).length j = 0) ∧
    (∀ i, i ≤ (([] : List ℕ) ++ 0 :: [1]).length → i ≠ ([] : List ℕ).length →
      (DiffusionMFD.applyBCsCell false 0 (([] : List ℕ) ++ 0 :: [1]) DiffusionMFD.c1bcT
          (fun _ => 1) (fun _ => 0) (fun _ => 1) DiffusionMFD.c1st).A i ([] : List ℕ).length = 0) ∧
    ((DiffusionMFD.applyBCsCell false 0 (([] : List ℕ) ++ 0 :: [1]) DiffusionMFD.c1bcT
        (fun _ => 1) (fun _ => 0) (fun _ => 1) DiffusionMFD.c1st).A ([] : List ℕ).length ([] : List ℕ).length =
      if false then 1 else 0) ∧
    (∀ i j, i ≠ ([] : List ℕ).length → j ≠ ([] : List ℕ).length →
      (DiffusionMFD.applyBCsCell false 0 (([] : List ℕ) ++ 0 :: [1]) DiffusionMFD.c1bcT
          (fun _ => 1) (fun _ => 0) (fun _ => 1) DiffusionMFD.c1st).A i j =
        DiffusionMFD.c1st.A i j) :=
  C1_applybc_amended false 0 [] [1] 0 DiffusionMFD.c1bcT
    (fun _ => 1) (fun _ => 0) (fun _ => 1) DiffusionMFD.c1st
    rfl
    (fun g hg => absurd hg (List.not_mem_nil g))
    (fun g hg => by
      have h2 : g = 1 := by simpa using hg
      subst h2
      rfl)
    (by decide)

end Amanzi
